import Mathlib

/-!
Verification development for the ConveyorBelt repository.

Python floats are modelled as exact rationals (ℚ), Python lists as `List`,
the `release_at` dict of a buffer lane as an association list with
dict-style get/set/delete, and the float modulo `%` (with a positive
divisor) as `qmod` below.  Randomness (spawn draws, key presses) is
modelled as explicit nondeterministic inputs.
-/

namespace ConveyorBelt

/-- Python float modulo with positive divisor: `x % y = x - y * floor (x / y)`,
the result lies in `[0, y)` for `y > 0`. -/
def qmod (x y : ℚ) : ℚ := x - y * (⌊x / y⌋ : ℤ)

theorem qmod_eq_of_mem (x y : ℚ) (h0 : 0 ≤ x) (h1 : x < y) : qmod x y = x := by
  have hy : 0 < y := lt_of_le_of_lt h0 h1
  have : ⌊x / y⌋ = 0 := by
    rw [Int.floor_eq_zero_iff]
    constructor
    · positivity
    · rw [div_lt_one hy]; exact h1
  simp [qmod, this]

theorem qmod_eq_sub_of_mem (x y : ℚ) (h0 : y ≤ x) (h1 : x < 2 * y) (hy : 0 < y) :
    qmod x y = x - y := by
  have : ⌊x / y⌋ = 1 := by
    rw [Int.floor_eq_iff]
    constructor
    · push_cast
      rw [le_div_iff₀ hy]; linarith
    · push_cast
      rw [div_lt_iff₀ hy]; linarith
  rw [qmod, this]
  push_cast
  ring

/-! ### Parameters (conveyor_core.py, top of file) -/

def BELTS_R : ℕ := 7
def BELTS_C : ℕ := 6
def DT : ℚ := 1 / 10
def SPEED_COLLECT : ℚ := 1
def SPEED_DRAIN : ℚ := 2
def SPEED_LINE2_DRAIN : ℚ := 4
def LOAD_LOOP_LEN_M : ℚ := 120
def SW_POS_M : ℚ := 60
def STATION_POS_M (s : ℕ) : ℚ :=
  if s = 1 then 10 else if s = 2 then 30 else if s = 3 then 80 else 100
def BELT_LEN_M : ℚ := 8
def LINE2_LEN_M : ℚ := 30
def UNL_LEN_M : ℚ := 15

/-- `serpentine_order(rows, cols)` from conveyor_core.py / conveyor_sim/ordering.py:
row-major numbering `1..rows*cols` with every odd row reversed. -/
def serpentine_order (rows cols : ℕ) : List ℕ :=
  (List.range rows).foldl
    (fun order r =>
      let row := List.range' (r * cols + 1) cols
      order ++ (if r % 2 = 1 then row.reverse else row))
    []

def SERP_ORDER : List ℕ := serpentine_order BELTS_R BELTS_C

/-! ### Moving (conveyor_core.py / conveyor_sim/moving.py) -/

structure Moving where
  id : ℕ
  seg : String
  pos : ℚ
  length : ℚ
  speed : ℚ
  wrap : Bool := false
deriving DecidableEq

def Moving.step (m : Moving) (dt : ℚ) : Moving :=
  if m.wrap then { m with pos := qmod (m.pos + m.speed * dt) m.length }
  else { m with pos := m.pos + m.speed * dt }

def Moving.done (m : Moving) : Bool :=
  !m.wrap && decide (m.pos ≥ m.length - 1 / 1000000000)

/-! ### ConveyorSystem state (conveyor_core.py) -/

structure ConveyorSystem where
  mode : String := "COLLECT"
  t : ℚ := 0
  next_id : ℕ := 1
  rr : ℕ := 0
  load_loop : List Moving := []
  belts : List (List Moving) := List.replicate (BELTS_R * BELTS_C) []
  line2 : List Moving := []
  unl1 : List Moving := []
  unl2 : List Moving := []
  done_log : List ℕ := []
deriving DecidableEq

/-- `self._belt_gap = 0.35 * BELT_LEN_M`. -/
def belt_gap : ℚ := 35 / 100 * BELT_LEN_M

def ConveyorSystem.speed_for (s : ConveyorSystem) (seg : String) : ℚ :=
  if s.mode = "COLLECT" then
    if seg = "LOAD" then SPEED_COLLECT
    else if seg.startsWith "B" then SPEED_COLLECT
    else 0
  else
    if seg = "L2" then SPEED_LINE2_DRAIN
    else if seg.startsWith "B" then SPEED_DRAIN
    else if seg = "U1" ∨ seg = "U2" then SPEED_DRAIN
    else 0

/-- One spawned item at station `st` (body of the inner loop of `_spawn`). -/
def ConveyorSystem.spawn_one (s : ConveyorSystem) (st : ℕ) : ConveyorSystem :=
  { s with
    load_loop := s.load_loop ++
      [{ id := s.next_id, seg := "LOAD",
         pos := qmod (STATION_POS_M st) LOAD_LOOP_LEN_M,
         length := LOAD_LOOP_LEN_M, speed := s.speed_for "LOAD", wrap := true }],
    next_id := s.next_id + 1 }

/-- `_spawn`, with the random Poisson draws given as an explicit list
`counts` of how many items appear at stations 1..4 this tick. -/
def ConveyorSystem.spawn (s : ConveyorSystem) (counts : List ℕ) : ConveyorSystem :=
  counts.enum.foldl (fun sys p => (fun q => ConveyorSystem.spawn_one q (p.1 + 1))^[p.2] sys) s

/-- The switch-crossing test of `_step_load_loop` (conveyor_core.py:110-116):
`prev` is the position before the step, `now` after, `sp` the loop speed. -/
def crossedB (sp prev now : ℚ) : Bool :=
  decide (0 < sp) &&
    ((decide (prev ≤ SW_POS_M) && decide (SW_POS_M ≤ now) &&
        decide (now - prev ≤ LOAD_LOOP_LEN_M / 2)) ||
      (decide (prev > now) && (decide (SW_POS_M ≥ prev) || decide (SW_POS_M ≤ now))))

/-- The belt entry created for arrival `m` on belt `b` (conveyor_core.py:125). -/
def mk_belt_item (b : ℕ) (speedB : ℚ) (m : Moving) : Moving :=
  { id := m.id, seg := "B" ++ toString b, pos := 0, length := BELT_LEN_M, speed := speedB }

/-- The assignment loop of `_step_load_loop` (conveyor_core.py:122-125):
each arrival in turn is appended to belt `SERP_ORDER[rr % 42]`, `rr` advancing. -/
def assign_arrivals (speedB : ℚ) :
    List (List Moving) → ℕ → List Moving → List (List Moving) × ℕ
  | belts, rr, [] => (belts, rr)
  | belts, rr, m :: rest =>
      let b := SERP_ORDER.getD (rr % (BELTS_R * BELTS_C)) 0
      assign_arrivals speedB
        (belts.set (b - 1) (belts.getD (b - 1) [] ++ [mk_belt_item b speedB m]))
        (rr + 1) rest

/-- The items of the load loop after stepping, paired with their previous
positions (conveyor_core.py:105-109). -/
def load_stepped (sp : ℚ) (loop : List Moving) : List (ℚ × Moving) :=
  loop.map (fun m => (m.pos, Moving.step { m with speed := sp } DT))

/-- The arrivals of one load-loop tick, sorted by resulting position
ascending (conveyor_core.py:117-121). -/
def load_arrivals_sorted (sp : ℚ) (loop : List Moving) : List Moving :=
  List.insertionSort (fun a b : Moving => a.pos ≤ b.pos)
    (((load_stepped sp loop).filter (fun pm => crossedB sp pm.1 pm.2.pos)).map (·.2))

def ConveyorSystem.step_load_loop (s : ConveyorSystem) : ConveyorSystem :=
  if s.load_loop.isEmpty then s
  else
    let sp := s.speed_for "LOAD"
    let stepped := load_stepped sp s.load_loop
    let sorted := load_arrivals_sorted sp s.load_loop
    if sorted.isEmpty then { s with load_loop := stepped.map (·.2) }
    else
      let br := assign_arrivals (s.speed_for "B") s.belts s.rr sorted
      let ids := sorted.map (·.id)
      { s with
        belts := br.1, rr := br.2,
        load_loop := (stepped.map (·.2)).filter (fun m => !decide (m.id ∈ ids)) }

/-- The follower loop of `_step_belts` (conveyor_core.py:144-149): each
follower advances by `sp*DT` but is clamped below `ahead.pos - GAP`
(and below the belt length when exits are not allowed), floored at 0. -/
def belt_followers (sp gap L : ℚ) (allow : Bool) : Moving → List Moving → List Moving
  | _, [] => []
  | ahead, m :: rest =>
      let mp0 := ahead.pos - gap
      let mp := if allow then mp0 else min mp0 L
      let m' := { m with pos := max 0 (min (m.pos + sp * DT) mp) }
      m' :: belt_followers sp gap L allow m' rest

/-- One belt segment advanced by one tick (conveyor_core.py:138-149):
sort by descending position, move the leader (clamped to the belt length
unless exits are allowed), then clamp each follower behind its leader. -/
def belt_advance (sp gap L : ℚ) (allow : Bool) (seg : List Moving) : List Moving :=
  match List.insertionSort (fun a b : Moving => b.pos ≤ a.pos) seg with
  | [] => []
  | leader :: rest =>
      let target := leader.pos + sp * DT
      let l' := { leader with pos := if allow then target else min target L }
      l' :: belt_followers sp gap L allow l' rest

/-- The line2 entry created when an item exits a belt (conveyor_core.py:155). -/
def mk_line2_item (speedL2 : ℚ) (m : Moving) : Moving :=
  { id := m.id, seg := "L2", pos := 0, length := LINE2_LEN_M, speed := speedL2 }

def exit_test (m : Moving) : Bool := decide (m.pos ≥ BELT_LEN_M - 1 / 1000000000)

/-- The body of the `for idx in SERP_ORDER` loop of `_step_belts`
(conveyor_core.py:134-158), acting on the accumulated (belts, line2) pair. -/
def belt_fold_step (sp spL2 : ℚ) (allow : Bool)
    (acc : List (List Moving) × List Moving) (idx : ℕ) :
    List (List Moving) × List Moving :=
  let seg := acc.1.getD (idx - 1) []
  if seg.isEmpty then acc
  else
    let updated := belt_advance sp belt_gap BELT_LEN_M allow seg
    if allow then
      (acc.1.set (idx - 1) (updated.filter (fun m => !exit_test m)),
       acc.2 ++ (updated.filter exit_test).map (mk_line2_item spL2))
    else (acc.1.set (idx - 1) updated, acc.2)

def ConveyorSystem.step_belts (s : ConveyorSystem) : ConveyorSystem :=
  let bl2 := SERP_ORDER.foldl
    (belt_fold_step (s.speed_for "B") (s.speed_for "L2") (decide (s.mode = "DRAIN")))
    (s.belts, s.line2)
  { s with belts := bl2.1, line2 := bl2.2 }

def mk_unl_item (u : String) (speedU : ℚ) (m : Moving) : Moving :=
  { id := m.id, seg := u, pos := 0, length := UNL_LEN_M, speed := speedU }

/-- The body of the routing loop of `_step_line2` (conveyor_core.py:169-174):
each arrival goes to unload line 1 or 2 by the parity of the shared
round-robin counter. -/
def unl_route_step (spU1 spU2 : ℚ) (acc : List Moving × List Moving × ℕ)
    (m : Moving) : List Moving × List Moving × ℕ :=
  if acc.2.2 % 2 = 0 then
    (acc.1 ++ [mk_unl_item "U1" spU1 m], acc.2.1, acc.2.2 + 1)
  else
    (acc.1, acc.2.1 ++ [mk_unl_item "U2" spU2 m], acc.2.2 + 1)

def ConveyorSystem.step_line2 (s : ConveyorSystem) : ConveyorSystem :=
  if s.line2.isEmpty then s
  else
    let stepped := s.line2.map (fun m => Moving.step { m with speed := s.speed_for "L2" } DT)
    let arrived := stepped.filter Moving.done
    if arrived.isEmpty then { s with line2 := stepped }
    else
      let ids := arrived.map (·.id)
      let uur := arrived.foldl (unl_route_step (s.speed_for "U1") (s.speed_for "U2"))
        (s.unl1, s.unl2, s.rr)
      { s with
        line2 := stepped.filter (fun m => !decide (m.id ∈ ids)),
        unl1 := uur.1, unl2 := uur.2.1, rr := uur.2.2 }

def ConveyorSystem.step_unl1 (s : ConveyorSystem) : ConveyorSystem :=
  if s.unl1.isEmpty then s
  else
    let stepped := s.unl1.map (fun m => Moving.step { m with speed := s.speed_for "U1" } DT)
    let dones := stepped.filter Moving.done
    if dones.isEmpty then { s with unl1 := stepped }
    else
      { s with
        unl1 := stepped.filter (fun m => !decide (m ∈ dones)),
        done_log := s.done_log ++ dones.map (·.id) }

def ConveyorSystem.step_unl2 (s : ConveyorSystem) : ConveyorSystem :=
  if s.unl2.isEmpty then s
  else
    let stepped := s.unl2.map (fun m => Moving.step { m with speed := s.speed_for "U2" } DT)
    let dones := stepped.filter Moving.done
    if dones.isEmpty then { s with unl2 := stepped }
    else
      { s with
        unl2 := stepped.filter (fun m => !decide (m ∈ dones)),
        done_log := s.done_log ++ dones.map (·.id) }

def ConveyorSystem.step_unloads (s : ConveyorSystem) : ConveyorSystem :=
  s.step_unl1.step_unl2

/-- `ConveyorSystem.tick` (conveyor_core.py:203-209); the spawn draws of
this tick are the explicit input `counts`. -/
def ConveyorSystem.tick (s : ConveyorSystem) (counts : List ℕ) : ConveyorSystem :=
  ((((ConveyorSystem.spawn { s with t := s.t + DT } counts).step_load_loop).step_belts).step_line2).step_unloads

def ConveyorSystem.toggle_mode (s : ConveyorSystem) : ConveyorSystem :=
  { s with mode := if s.mode = "COLLECT" then "DRAIN" else "COLLECT" }

/-- `set_mode` (conveyor_core.py:214-216): the `assert` raises
`AssertionError` (modelled as `.error`) before any mutation. -/
def ConveyorSystem.set_mode (s : ConveyorSystem) (mode : String) :
    Except String ConveyorSystem :=
  if mode = "COLLECT" ∨ mode = "DRAIN" then .ok { s with mode := mode }
  else .error "AssertionError"

/-- External events driving the system between/at ticks, as in the main loop
and test_sim.py: a tick (with its random spawn draws) or a mode command. -/
inductive Event where
  | tick (counts : List ℕ)
  | toggle
  | set (mode : String)

/-- Apply one event; a failed `set_mode` assertion leaves the state unchanged
(the exception propagates before any mutation). -/
def ConveyorSystem.apply_event (s : ConveyorSystem) : Event → ConveyorSystem
  | .tick counts => s.tick counts
  | .toggle => s.toggle_mode
  | .set m => match s.set_mode m with | .ok s' => s' | .error _ => s

/-- Every state reachable from the initial `ConveyorSystem()` by ticking and
mode commands. -/
def run (events : List Event) : ConveyorSystem :=
  events.foldl ConveyorSystem.apply_event {}

/-! ### PLC_deneme2.py: TON timer, SwapperHW equipment unit -/

structure TON where
  pt : ℚ
  start : Option ℚ := none
  q : Bool := false
  et : ℚ := 0
deriving DecidableEq

def TON.update (s : TON) (en : Bool) (tnow : ℚ) : TON :=
  if en then
    match s.start with
    | none => { s with start := some tnow, et := 0, q := false }
    | some t0 => { s with et := tnow - t0, q := decide (tnow - t0 ≥ s.pt) }
  else
    { s with start := none, et := 0, q := false }

/-- The equipment unit of PLC_deneme2.py (`SwapperHW`), fresh with
`move_time` duration: ready, not busy, not complete, idle timer. -/
structure SwapperHW where
  ready : Bool := true
  busy : Bool := false
  complete : Bool := false
  ton : TON
  latched : ℕ := 0
deriving DecidableEq

/-- `SwapperHW.step(cmd, tnow)` (PLC_deneme2.py:94-111). -/
def SwapperHW.step (s0 : SwapperHW) (cmd : Bool) (tnow : ℚ) : SwapperHW :=
  let s1 :=
    if cmd && s0.ready && !s0.busy then
      { s0 with ready := false, busy := true, ton := s0.ton.update true tnow }
    else s0
  if s1.busy then
    let t2 := s1.ton.update true tnow
    if t2.q then
      { s1 with busy := false, complete := true, latched := 1,
                ton := t2.update false tnow }
    else { s1 with ton := t2 }
  else
    if s1.latched > 0 then { s1 with latched := s1.latched - 1 }
    else { s1 with complete := false, ready := true }

/-! ### PLC_deneme2.py: jobs and the LIFO scheduler -/

structure Job where
  id : ℕ
  station : ℕ
  hook_id : ℕ
  created_at : ℚ
  laps : ℕ := 0
deriving DecidableEq

/-- `LifoScheduler.on_hook_passed_depot` (PLC_deneme2.py:129-132):
bump the lap count of every waiting job bound to this hook. -/
def on_hook_passed_depot (jobs : List Job) (hook_id : ℕ) : List Job :=
  jobs.map (fun j => if j.hook_id = hook_id then { j with laps := j.laps + 1 } else j)

/-- `LifoScheduler.pick_next_job` (PLC_deneme2.py:133-140).  `sorted(..)[0]`
is the head of a stable ascending sort; `sorted(.., reverse=True)[0]` the
head of a stable descending sort. -/
def pick_next_job (max_laps_for_old : ℕ) (jobs : List Job)
    (_depot_present_hook : Option ℕ) : Option Job :=
  if jobs.isEmpty then none
  else
    let aged := jobs.filter (fun j => decide (j.laps ≥ max_laps_for_old))
    if !aged.isEmpty then
      (List.insertionSort (fun a b : Job => a.created_at ≤ b.created_at) aged).head?
    else
      (List.insertionSort (fun a b : Job => b.created_at ≤ a.created_at) jobs).head?

/-- `LifoScheduler.remove` (PLC_deneme2.py:141-142). -/
def scheduler_remove (jobs : List Job) (job_id : ℕ) : List Job :=
  jobs.filter (fun j => !decide (j.id = job_id))

/-- The depot fragment of `main` (PLC_deneme2.py:485-496): when the depot
hardware finishes a transfer of the targeted job, that job is removed from
the waiting set; afterwards, if a hook is present at the depot and it is
not the hook of the current target, the scheduler counts a depot pass for
that hook.  `complete` is `dp_hw.complete`, `cur` the hook at the depot. -/
def depot_pass_step (jobs : List Job) (complete : Bool) (target : Option Job)
    (depot_present : Bool) (depot_hook : Option ℕ) : List Job :=
  let target_hook := target.map Job.hook_id
  let jobs1 :=
    match target with
    | some tj =>
        if complete && (depot_hook == some tj.hook_id) then scheduler_remove jobs tj.id
        else jobs
    | none => jobs
  match depot_present, depot_hook with
  | true, some cur =>
      if target.isNone || !(some cur == target_hook) then on_hook_passed_depot jobs1 cur
      else jobs1
  | _, _ => jobs1

/-! ### PLC_deneme2.py: BufferLane, with its dict of release times -/

/-- Association-list model of the Python dict `release_at`. -/
abbrev RelMap := List (ℕ × ℚ)

def dict_get (d : RelMap) (k : ℕ) : Option ℚ :=
  ((List.find? (fun e => e.1 == k)) d).map (·.2)

def dict_getD (d : RelMap) (k : ℕ) (v : ℚ) : ℚ := (dict_get d k).getD v

def dict_set (d : RelMap) (k : ℕ) (v : ℚ) : RelMap :=
  (List.filter (fun e => !(e.1 == k)) d) ++ [(k, v)]

def dict_pop (d : RelMap) (k : ℕ) : RelMap :=
  List.filter (fun e => !(e.1 == k)) d

structure BufferLane where
  id : ℕ
  capacity : ℕ := 30
  slots : List ℕ := []
  release_at : RelMap := []
deriving DecidableEq

def BufferLane.can_accept (l : BufferLane) : Bool :=
  decide (l.slots.length < l.capacity)

/-- `BufferLane.put` (PLC_deneme2.py:318-320): unconditional append. -/
def BufferLane.put (l : BufferLane) (job_id : ℕ) (now_sim hold_seconds : ℚ) : BufferLane :=
  { l with slots := l.slots ++ [job_id],
           release_at := dict_set l.release_at job_id (now_sim + hold_seconds) }

/-- `BufferLane.tick_release` (PLC_deneme2.py:321-326): collect every held id
whose release time (default `1e18`) has elapsed, then remove each from the
slots and drop its dict entry. -/
def BufferLane.tick_release (l : BufferLane) (now_sim : ℚ) : List ℕ × BufferLane :=
  let rel := l.slots.filter (fun jid => decide (dict_getD l.release_at jid (10 ^ 18) ≤ now_sim))
  let slots := rel.foldl (fun s jid => s.erase jid) l.slots
  let ra := rel.foldl (fun d jid => dict_pop d jid) l.release_at
  (rel, { l with slots := slots, release_at := ra })

/-- One buffer-lane operation, as issued by the main loop. -/
inductive LaneOp where
  | put (job_id : ℕ) (now hold : ℚ)
  | tick (now : ℚ)

/-- An arbitrary (unguarded) sequence of lane operations. -/
def BufferLane.apply_op (l : BufferLane) : LaneOp → BufferLane
  | .put j n h => l.put j n h
  | .tick n => (l.tick_release n).2

/-- A guarded sequence: `put` is only performed when `can_accept` holds,
as the sorter does (`pick_lane` only picks lanes with `can_accept()`,
PLC_deneme2.py:373-375). -/
def BufferLane.apply_op_guarded (l : BufferLane) : LaneOp → BufferLane
  | .put j n h => if l.can_accept then l.put j n h else l
  | .tick n => (l.tick_release n).2

/-! ### conveyor_sim/system.py: deadline-driven drain speeds -/

/-- `worst_remaining_distance` (conveyor_sim/system.py:50-60). -/
def worst_remaining_distance (m : Moving) : ℚ :=
  if m.seg.startsWith "B" then max 0 (BELT_LEN_M - m.pos) + LINE2_LEN_M + UNL_LEN_M
  else if m.seg = "L2" then max 0 (LINE2_LEN_M - m.pos) + UNL_LEN_M
  else if m.seg = "U1" ∨ m.seg = "U2" then max 0 (UNL_LEN_M - m.pos)
  else if m.seg = "LOAD" ∨ m.seg = "L1" then LINE2_LEN_M + UNL_LEN_M + BELT_LEN_M
  else BELT_LEN_M + LINE2_LEN_M + UNL_LEN_M

/-- `_compute_and_set_drain_speeds` (conveyor_sim/system.py:48-75), over the
list of all in-flight items; the floor speeds (`SPEED_DRAIN`,
`SPEED_LINE2_DRAIN`) and the deadline window (`DRAIN_WINDOW_S`) come from
the config module and are taken as parameters.  Returns the belt drain
speed and the line2 drain speed. -/
def compute_drain_speeds (items : List Moving)
    (speed_drain speed_line2_drain drain_window_s : ℚ) : ℚ × ℚ :=
  let worst := items.foldl (fun w m => max w (worst_remaining_distance m)) 0
  let min_speed := worst / max (1 / 1000000) drain_window_s
  let safety : ℚ := 12 / 10
  (max speed_drain (safety * min_speed), max speed_line2_drain (safety * min_speed))

/-! ### C10: set_mode error handling -/

/-- Claim C10: `ConveyorSystem.set_mode` accepts only `"COLLECT"` and
`"DRAIN"`; for every other argument (in particular `"HANG"`) it raises an
`AssertionError` and leaves the system state, including the current mode,
unchanged; for an accepted argument it sets the mode to that value and
changes nothing else. -/
theorem set_mode_spec (s : ConveyorSystem) (mode : String) :
    (mode = "COLLECT" ∨ mode = "DRAIN" →
      s.set_mode mode = .ok { s with mode := mode }) ∧
    (¬(mode = "COLLECT" ∨ mode = "DRAIN") →
      s.set_mode mode = .error "AssertionError" ∧
        s.apply_event (Event.set mode) = s) ∧
    s.set_mode "HANG" = .error "AssertionError" := by
  refine ⟨fun h => ?_, fun h => ?_, ?_⟩
  · simp [ConveyorSystem.set_mode, h]
  · constructor
    · simp [ConveyorSystem.set_mode, h]
    · simp [ConveyorSystem.apply_event, ConveyorSystem.set_mode, h]
  · simp [ConveyorSystem.set_mode]

/-- Witness for C10 at the initial state and the concrete mode `"HANG"`. -/
theorem set_mode_spec_witness :
    ({} : ConveyorSystem).set_mode "HANG" = .error "AssertionError" ∧
      ({} : ConveyorSystem).set_mode "DRAIN" =
        .ok { ({} : ConveyorSystem) with mode := "DRAIN" } :=
  ⟨((set_mode_spec {} "HANG").2.1 (by decide)).1,
    (set_mode_spec {} "DRAIN").1 (Or.inr rfl)⟩

/-! ### C4: drain speed computation -/

/-- Claim C4: on the COLLECT-to-DRAIN transition, with `R` the maximum over
all in-flight items of the worst-case remaining path length to the final
exit and `W` the configured deadline window, the belt drain speed and the
line2 drain speed each satisfy `v ≥ safety * (R / W)` with safety factor
`1.2 > 1`, and each is at least its configured floor speed. -/
theorem drain_speed_spec (items : List Moving) (speed_drain speed_line2_drain W : ℚ)
    (hW : 1 / 1000000 ≤ W) :
    (1 : ℚ) < 12 / 10 ∧
    (compute_drain_speeds items speed_drain speed_line2_drain W).1 ≥
      12 / 10 * ((items.foldl (fun w m => max w (worst_remaining_distance m)) 0) / W) ∧
    (compute_drain_speeds items speed_drain speed_line2_drain W).1 ≥ speed_drain ∧
    (compute_drain_speeds items speed_drain speed_line2_drain W).2 ≥
      12 / 10 * ((items.foldl (fun w m => max w (worst_remaining_distance m)) 0) / W) ∧
    (compute_drain_speeds items speed_drain speed_line2_drain W).2 ≥ speed_line2_drain := by
  have hmax : max (1 / 1000000 : ℚ) W = W := max_eq_right hW
  refine ⟨by norm_num, ?_, ?_, ?_, ?_⟩ <;>
    simp only [compute_drain_speeds, hmax] <;>
    first
      | exact le_max_right _ _
      | exact le_max_left _ _

/-- Witness for C4: one item halfway down a belt, floors 2 and 4, a
900-second window. -/
theorem drain_speed_spec_witness :
    (1 : ℚ) / 1000000 ≤ 900 ∧
    ((1 : ℚ) < 12 / 10 ∧
      (compute_drain_speeds [{ id := 1, seg := "B5", pos := 4, length := 8, speed := 1 }] 2 4 900).1 ≥
        12 / 10 *
          (([({ id := 1, seg := "B5", pos := 4, length := 8, speed := 1 } : Moving)].foldl
              (fun w m => max w (worst_remaining_distance m)) 0) / 900) ∧
      (compute_drain_speeds [{ id := 1, seg := "B5", pos := 4, length := 8, speed := 1 }] 2 4 900).1 ≥ 2 ∧
      (compute_drain_speeds [{ id := 1, seg := "B5", pos := 4, length := 8, speed := 1 }] 2 4 900).2 ≥
        12 / 10 *
          (([({ id := 1, seg := "B5", pos := 4, length := 8, speed := 1 } : Moving)].foldl
              (fun w m => max w (worst_remaining_distance m)) 0) / 900) ∧
      (compute_drain_speeds [{ id := 1, seg := "B5", pos := 4, length := 8, speed := 1 }] 2 4 900).2 ≥ 4) :=
  ⟨by norm_num,
    drain_speed_spec [{ id := 1, seg := "B5", pos := 4, length := 8, speed := 1 }] 2 4 900
      (by norm_num)⟩

/-! ### C3: scheduler selection policy -/

instance : IsTotal Job (fun a b : Job => a.created_at ≤ b.created_at) :=
  ⟨fun a b => le_total a.created_at b.created_at⟩

instance : IsTrans Job (fun a b : Job => a.created_at ≤ b.created_at) :=
  ⟨fun _ _ _ h1 h2 => le_trans h1 h2⟩

instance : IsTotal Job (fun a b : Job => b.created_at ≤ a.created_at) :=
  ⟨fun a b => le_total b.created_at a.created_at⟩

instance : IsTrans Job (fun a b : Job => b.created_at ≤ a.created_at) :=
  ⟨fun _ _ _ h1 h2 => le_trans h2 h1⟩

/-- The head of a stable sort (Python's `sorted(l, key=..)[0]`) is a member
of the list and `r`-below every member. -/
theorem insertionSort_head_spec {α : Type} {r : α → α → Prop} [DecidableRel r]
    [IsTotal α r] [IsTrans α r] {l : List α} {x : α}
    (h : (List.insertionSort r l).head? = some x) :
    x ∈ l ∧ ∀ y ∈ l, y = x ∨ r x y := by
  have hperm := List.perm_insertionSort r l
  have hsorted := List.sorted_insertionSort r l
  cases hs : List.insertionSort r l with
  | nil => rw [hs] at h; simp at h
  | cons a t =>
      rw [hs] at h
      simp only [List.head?_cons, Option.some.injEq] at h
      subst h
      rw [hs] at hperm hsorted
      constructor
      · exact hperm.mem_iff.mp (List.mem_cons_self _ _)
      · intro y hy
        have : y ∈ a :: t := hperm.mem_iff.mpr hy
        rcases List.mem_cons.mp this with h1 | h2
        · exact Or.inl h1
        · exact Or.inr (List.rel_of_sorted_cons hsorted y h2)

/-- Claim C3: `pick_next_job` returns `none` iff the waiting set is empty;
if any waiting job has lap count at or above the aging threshold, it returns
among those aged jobs one with the earliest creation time; otherwise it
returns among all waiting (fresh) jobs one with the latest creation time.
In particular an aged job is always selected before any fresh job. -/
theorem pick_next_job_policy (max_laps : ℕ) (jobs : List Job) (dep : Option ℕ) :
    (pick_next_job max_laps jobs dep = none ↔ jobs = []) ∧
    (∀ j, pick_next_job max_laps jobs dep = some j →
      (jobs.filter (fun k => decide (k.laps ≥ max_laps)) ≠ [] →
        j ∈ jobs.filter (fun k => decide (k.laps ≥ max_laps)) ∧
        ∀ k ∈ jobs.filter (fun k => decide (k.laps ≥ max_laps)),
          j.created_at ≤ k.created_at) ∧
      (jobs.filter (fun k => decide (k.laps ≥ max_laps)) = [] →
        j ∈ jobs ∧ ∀ k ∈ jobs, k.created_at ≤ j.created_at)) := by
  constructor
  · constructor
    · intro h
      by_contra hne
      have hjem : ¬jobs.isEmpty := by simpa [List.isEmpty_iff] using hne
      unfold pick_next_job at h
      rw [if_neg hjem] at h
      by_cases ha : (jobs.filter (fun j => decide (j.laps ≥ max_laps))).isEmpty
      · rw [if_neg (by simpa using ha)] at h
        have hp := List.perm_insertionSort (fun a b : Job => b.created_at ≤ a.created_at) jobs
        cases hs : List.insertionSort (fun a b : Job => b.created_at ≤ a.created_at) jobs with
        | nil =>
            rw [hs] at hp
            exact hne (hp.symm.eq_nil)
        | cons a t => rw [hs] at h; simp at h
      · rw [if_pos (by simpa using ha)] at h
        have hp := List.perm_insertionSort (fun a b : Job => a.created_at ≤ b.created_at)
          (jobs.filter (fun j => decide (j.laps ≥ max_laps)))
        cases hs : List.insertionSort (fun a b : Job => a.created_at ≤ b.created_at)
            (jobs.filter (fun j => decide (j.laps ≥ max_laps))) with
        | nil =>
            rw [hs] at hp
            have := hp.symm.eq_nil
            rw [this] at ha
            simp at ha
        | cons a t => rw [hs] at h; simp at h
    · intro h
      subst h
      rfl
  · intro j hj
    have hje : ¬jobs.isEmpty := by
      intro he
      unfold pick_next_job at hj
      rw [if_pos he] at hj
      simp at hj
    constructor
    · intro hne
      unfold pick_next_job at hj
      rw [if_neg hje, if_pos (by simpa [List.isEmpty_iff] using hne)] at hj
      obtain ⟨hmem, hmin⟩ := insertionSort_head_spec hj
      refine ⟨hmem, fun k hk => ?_⟩
      rcases hmin k hk with h1 | h2
      · exact le_of_eq (by rw [h1])
      · exact h2
    · intro hnil
      unfold pick_next_job at hj
      rw [if_neg hje, if_neg (by simp [hnil])] at hj
      obtain ⟨hmem, hmax⟩ := insertionSort_head_spec hj
      refine ⟨hmem, fun k hk => ?_⟩
      rcases hmax k hk with h1 | h2
      · exact le_of_eq (by rw [h1])
      · exact h2

/-- Witness for C3: an aged job (2 laps, created first) beats a fresher job
(created later); applies the policy theorem at that concrete input. -/
theorem pick_next_job_policy_witness :
    pick_next_job 2
        [{ id := 1, station := 1, hook_id := 1, created_at := 1, laps := 2 },
         { id := 2, station := 2, hook_id := 2, created_at := 5, laps := 0 }] none =
      some { id := 1, station := 1, hook_id := 1, created_at := 1, laps := 2 } ∧
    { id := 1, station := 1, hook_id := 1, created_at := 1, laps := 2 } ∈
      ([{ id := 1, station := 1, hook_id := 1, created_at := 1, laps := 2 },
        { id := 2, station := 2, hook_id := 2, created_at := 5, laps := 0 }] :
          List Job).filter (fun k => decide (k.laps ≥ 2)) := by
  have hpick : pick_next_job 2
      [{ id := 1, station := 1, hook_id := 1, created_at := 1, laps := 2 },
       { id := 2, station := 2, hook_id := 2, created_at := 5, laps := 0 }] none =
      some { id := 1, station := 1, hook_id := 1, created_at := 1, laps := 2 } := by
    unfold pick_next_job
    norm_num [List.filter, List.insertionSort, List.orderedInsert]
  refine ⟨hpick, ?_⟩
  have := ((pick_next_job_policy 2
      [{ id := 1, station := 1, hook_id := 1, created_at := 1, laps := 2 },
       { id := 2, station := 2, hook_id := 2, created_at := 5, laps := 0 }] none).2
    _ hpick).1 (by norm_num [List.filter])
  exact this.1

/-! ### C7 / C9: buffer lane lemmas -/

/-- Erasing elements that are all distinct from the head passes over it. -/
theorem foldl_erase_cons_of_ne (x : ℕ) (t es : List ℕ) (h : ∀ e ∈ es, x ≠ e) :
    es.foldl (fun s j => s.erase j) (x :: t) = x :: es.foldl (fun s j => s.erase j) t := by
  induction es generalizing t with
  | nil => rfl
  | cons e es ih =>
      simp only [List.foldl_cons]
      rw [List.erase_cons_tail (by simpa using h e (List.mem_cons_self _ _))]
      exact ih (t.erase e) (fun a ha => h a (List.mem_cons_of_mem _ ha))

/-- The removal loop of `tick_release`: erasing, one by one, every
occurrence that satisfies `q` has the same effect as filtering `q` out. -/
theorem foldl_erase_filter (q : ℕ → Bool) (l : List ℕ) :
    (l.filter q).foldl (fun s j => s.erase j) l = l.filter (fun j => !q j) := by
  induction l with
  | nil => rfl
  | cons x t ih =>
      by_cases hx : q x = true
      · rw [List.filter_cons_of_pos hx, List.foldl_cons, List.erase_cons_head,
          List.filter_cons_of_neg (by simp [hx]), ih]
      · rw [List.filter_cons_of_neg hx,
          foldl_erase_cons_of_ne x t _
            (fun e he hxe => hx (hxe ▸ List.of_mem_filter he)),
          ih, List.filter_cons_of_pos (by simp [Bool.not_eq_true] at hx ⊢; exact hx)]

theorem dict_get_pop_ne (d : RelMap) (k j : ℕ) (h : j ≠ k) :
    dict_get (dict_pop d k) j = dict_get d j := by
  induction d with
  | nil => rfl
  | cons e es ih =>
      show dict_get (List.filter (fun a => !(a.1 == k)) (e :: es)) j = _
      by_cases hek : e.1 = k
      · rw [List.filter_cons_of_neg (by simp [hek])]
        have hej : (e.1 == j) = false := by
          simp only [beq_eq_false_iff_ne, ne_eq, hek]
          exact fun hkj => h hkj.symm
        show dict_get (dict_pop es k) j = ((e :: es).find? (fun a => a.1 == j)).map (·.2)
        rw [List.find?_cons_of_neg _ (by simp [hej])]
        exact ih
      · rw [List.filter_cons_of_pos (by simp [hek])]
        by_cases hej : e.1 = j
        · show ((e :: dict_pop es k).find? (fun a => a.1 == j)).map (·.2) =
            ((e :: es).find? (fun a => a.1 == j)).map (·.2)
          rw [List.find?_cons_of_pos _ (by simp [hej]),
              List.find?_cons_of_pos _ (by simp [hej])]
        · show ((e :: dict_pop es k).find? (fun a => a.1 == j)).map (·.2) =
            ((e :: es).find? (fun a => a.1 == j)).map (·.2)
          rw [List.find?_cons_of_neg _ (by simp [hej]),
              List.find?_cons_of_neg _ (by simp [hej])]
          exact ih

theorem dict_get_foldl_pop (rel : List ℕ) (d : RelMap) (j : ℕ) (h : j ∉ rel) :
    dict_get (rel.foldl (fun d k => dict_pop d k) d) j = dict_get d j := by
  induction rel generalizing d with
  | nil => rfl
  | cons k ks ih =>
      simp only [List.foldl_cons]
      rw [ih _ (fun hk => h (List.mem_cons_of_mem _ hk))]
      exact dict_get_pop_ne d k j (fun hjk => h (hjk ▸ List.mem_cons_self _ _))

/-- Claim C7: `tick_release now` removes and returns exactly the held item
identifiers whose scheduled release time is at most `now`, and a second
call at the same time returns the empty list and leaves the lane
unchanged. -/
theorem tick_release_idempotent (l : BufferLane) (now : ℚ)
    (h : ∀ j ∈ l.slots, (dict_get l.release_at j).isSome = true) :
    (l.tick_release now).1 =
      l.slots.filter
        (fun j => ((dict_get l.release_at j).map (fun t => decide (t ≤ now))).getD false) ∧
    (l.tick_release now).2.slots =
      l.slots.filter
        (fun j => !((dict_get l.release_at j).map (fun t => decide (t ≤ now))).getD false) ∧
    (l.tick_release now).2.tick_release now = ([], (l.tick_release now).2) := by
  have hcongr : ∀ j ∈ l.slots,
      (decide (dict_getD l.release_at j (10 ^ 18) ≤ now)) =
        ((dict_get l.release_at j).map (fun t => decide (t ≤ now))).getD false := by
    intro j hj
    rcases Option.isSome_iff_exists.mp (h j hj) with ⟨t, ht⟩
    simp [dict_getD, ht]
  have hrel : (l.tick_release now).1 =
      l.slots.filter (fun j => decide (dict_getD l.release_at j (10 ^ 18) ≤ now)) := rfl
  have hslots : (l.tick_release now).2.slots =
      l.slots.filter (fun j => !decide (dict_getD l.release_at j (10 ^ 18) ≤ now)) := by
    show (l.slots.filter (fun j => decide (dict_getD l.release_at j (10 ^ 18) ≤ now))).foldl
        (fun s j => s.erase j) l.slots = _
    exact foldl_erase_filter _ l.slots
  refine ⟨by rw [hrel]; exact List.filter_congr hcongr,
    by rw [hslots]; exact List.filter_congr (fun j hj => by rw [hcongr j hj]), ?_⟩
  have hmem2 : ∀ j ∈ (l.tick_release now).2.slots,
      j ∈ l.slots ∧ decide (dict_getD l.release_at j (10 ^ 18) ≤ now) = false := by
    intro j hj
    rw [hslots] at hj
    have := List.mem_filter.mp hj
    exact ⟨this.1, by simpa using this.2⟩
  have hget2 : ∀ j ∈ (l.tick_release now).2.slots,
      dict_get (l.tick_release now).2.release_at j = dict_get l.release_at j := by
    intro j hj
    show dict_get ((l.tick_release now).1.foldl (fun d k => dict_pop d k) l.release_at) j = _
    refine dict_get_foldl_pop _ _ _ (fun hjrel => ?_)
    rw [hrel] at hjrel
    have := List.of_mem_filter hjrel
    rw [(hmem2 j hj).2] at this
    exact Bool.false_ne_true this
  have hrel2 : (l.tick_release now).2.slots.filter
      (fun j => decide (dict_getD (l.tick_release now).2.release_at j (10 ^ 18) ≤ now)) =
        [] := by
    rw [List.filter_eq_nil_iff]
    intro j hj
    rw [show dict_getD (l.tick_release now).2.release_at j (10 ^ 18) =
        dict_getD l.release_at j (10 ^ 18) by rw [dict_getD, hget2 j hj, dict_getD]]
    simp [(hmem2 j hj).2]
  show ((l.tick_release now).2.slots.filter
      (fun j => decide (dict_getD (l.tick_release now).2.release_at j (10 ^ 18) ≤ now)),
    { (l.tick_release now).2 with
      slots := ((l.tick_release now).2.slots.filter
          (fun j => decide (dict_getD (l.tick_release now).2.release_at j (10 ^ 18) ≤ now))).foldl
        (fun s j => s.erase j) (l.tick_release now).2.slots,
      release_at := ((l.tick_release now).2.slots.filter
          (fun j => decide (dict_getD (l.tick_release now).2.release_at j (10 ^ 18) ≤ now))).foldl
        (fun d k => dict_pop d k) (l.tick_release now).2.release_at }) =
    ([], (l.tick_release now).2)
  rw [hrel2]
  rfl

/-- A concrete lane for the C7 witness: item 5 held with release time 3. -/
def demo_lane : BufferLane :=
  { id := 1, capacity := 30, slots := [5], release_at := [(5, (3 : ℚ))] }

/-- Witness for C7: the demo lane queried at time 10; the hypothesis (every
held id has a scheduled time) is discharged by computation. -/
theorem tick_release_idempotent_witness :
    (∀ j ∈ demo_lane.slots, (dict_get demo_lane.release_at j).isSome = true) ∧
    (demo_lane.tick_release 10).2.tick_release 10 = ([], (demo_lane.tick_release 10).2) := by
  have h : ∀ j ∈ demo_lane.slots, (dict_get demo_lane.release_at j).isSome = true := by
    intro j hj
    simp only [demo_lane, List.mem_singleton] at hj
    subst hj
    rfl
  exact ⟨h, (tick_release_idempotent demo_lane 10 h).2.2⟩

/-- Claim C9 counterexample: `put` does not check capacity, so a sequence of
two raw `put` operations on a capacity-1 lane overfills it. -/
theorem lane_capacity_counterexample :
    ¬(([LaneOp.put 7 0 1, LaneOp.put 8 0 1].foldl BufferLane.apply_op
          { id := 1, capacity := 1 }).slots.length ≤
        ({ id := 1, capacity := 1 } : BufferLane).capacity) := by
  simp [BufferLane.apply_op, BufferLane.put]

/-- Claim C9 (amended): for every sequence of `put` and `tick_release`
operations in which `put` is only performed when `can_accept` holds (as the
sorter guarantees via `pick_lane`), occupancy never exceeds the fixed
capacity; and `can_accept` returns true exactly when occupancy is strictly
below capacity. -/
theorem lane_capacity_guarded (laneId cap : ℕ) (ops : List LaneOp) :
    (ops.foldl BufferLane.apply_op_guarded { id := laneId, capacity := cap }).slots.length ≤
      cap ∧
    (∀ l : BufferLane, l.can_accept = true ↔ l.slots.length < l.capacity) := by
  have key : ∀ (ops : List LaneOp) (l : BufferLane), l.slots.length ≤ l.capacity →
      (ops.foldl BufferLane.apply_op_guarded l).slots.length ≤
        (ops.foldl BufferLane.apply_op_guarded l).capacity ∧
      (ops.foldl BufferLane.apply_op_guarded l).capacity = l.capacity := by
    intro ops
    induction ops with
    | nil => exact fun l hl => ⟨hl, rfl⟩
    | cons op ops ih =>
        intro l hl
        simp only [List.foldl_cons]
        have hstep : (l.apply_op_guarded op).slots.length ≤ (l.apply_op_guarded op).capacity ∧
            (l.apply_op_guarded op).capacity = l.capacity := by
          cases op with
          | put j n hd =>
              by_cases hacc : l.can_accept = true
              · have : l.slots.length < l.capacity := by
                  simpa [BufferLane.can_accept] using hacc
                simp only [BufferLane.apply_op_guarded, if_pos hacc, BufferLane.put]
                constructor
                · simpa using this
                · trivial
              · simp only [BufferLane.apply_op_guarded, if_neg hacc]
                exact ⟨hl, trivial⟩
          | tick n =>
              constructor
              · show ((l.tick_release n).2).slots.length ≤ _
                have : (l.tick_release n).2.slots =
                    l.slots.filter
                      (fun j => !decide (dict_getD l.release_at j (10 ^ 18) ≤ n)) :=
                  foldl_erase_filter _ l.slots
                rw [this]
                exact le_trans (List.length_filter_le _ _) hl
              · trivial
        obtain ⟨h1, h2⟩ := ih (l.apply_op_guarded op) hstep.1
        exact ⟨h1, h2.trans hstep.2⟩
  constructor
  · have := key ops { id := laneId, capacity := cap } (by simp)
    simpa [this.2] using this.1
  · intro l
    simp [BufferLane.can_accept]

/-- Witness for C9 (no nontrivial hypotheses): the guarded invariant at a
concrete capacity-1 lane and a concrete operation sequence. -/
theorem lane_capacity_guarded_witness :
    (([LaneOp.put 7 0 1, LaneOp.put 8 0 1].foldl BufferLane.apply_op_guarded
        { id := 1, capacity := 1 }).slots.length ≤ 1) ∧
    (∀ l : BufferLane, l.can_accept = true ↔ l.slots.length < l.capacity) :=
  lane_capacity_guarded 1 1 [LaneOp.put 7 0 1, LaneOp.put 8 0 1]

/-! ### C8: lap increment on a depot pass -/

/-- Claim C8: when the carrier-passed-depot operation fires (a hook is
present at the depot and it is not the hook of the current target — in
particular never for the hook of the job just serviced, which was removed
from the waiting set in the same scan), it increments the lap counter of
every waiting job bound to that carrier and leaves every other waiting job
unchanged, element by element. -/
theorem depot_pass_increments (jobs : List Job) (cur : ℕ) (complete : Bool)
    (target : Option Job)
    (hguard : target = none ∨ ∃ tj, target = some tj ∧ cur ≠ tj.hook_id) :
    depot_pass_step jobs complete target true (some cur) = on_hook_passed_depot jobs cur ∧
    (on_hook_passed_depot jobs cur).length = jobs.length ∧
    ∀ i : ℕ, (on_hook_passed_depot jobs cur)[i]? =
      (jobs[i]?).map
        (fun j => if j.hook_id = cur then { j with laps := j.laps + 1 } else j) := by
  refine ⟨?_, by simp [on_hook_passed_depot], ?_⟩
  · rcases hguard with h | ⟨tj, htj, hne⟩
    · subst h
      rfl
    · subst htj
      have hbeq : (cur == tj.hook_id) = false := by simpa using hne
      simp [depot_pass_step, hbeq]
  · intro i
    simp [on_hook_passed_depot, List.getElem?_map]

/-- Witness for C8: two waiting jobs, hooks 3 and 4, a pass of hook 3 with
no current target; discharges the guard hypothesis concretely. -/
theorem depot_pass_increments_witness :
    depot_pass_step
        [{ id := 1, station := 1, hook_id := 3, created_at := 1, laps := 0 },
         { id := 2, station := 2, hook_id := 4, created_at := 2, laps := 0 }]
        false none true (some 3) =
      on_hook_passed_depot
        [{ id := 1, station := 1, hook_id := 3, created_at := 1, laps := 0 },
         { id := 2, station := 2, hook_id := 4, created_at := 2, laps := 0 }] 3 ∧
    on_hook_passed_depot
        [{ id := 1, station := 1, hook_id := 3, created_at := 1, laps := 0 },
         { id := 2, station := 2, hook_id := 4, created_at := 2, laps := 0 }] 3 =
      [{ id := 1, station := 1, hook_id := 3, created_at := 1, laps := 1 },
       { id := 2, station := 2, hook_id := 4, created_at := 2, laps := 0 }] := by
  refine ⟨(depot_pass_increments _ 3 false none (Or.inl rfl)).1, ?_⟩
  norm_num [on_hook_passed_depot]

/-! ### C5: equipment unit completion latch -/

/-- Claim C5: from ready and not busy, a commanded step starts a busy cycle;
while the elapsed time is below the duration the unit stays busy and not
ready; on the step where the timer completes, `complete` becomes true and
`busy` false; `complete` stays latched for exactly one further step (whether
commanded or not); on the second step after completion the unit is back to
ready with `complete` false.  Throughout the cycle `ready` is false, so no
second command cycle can start. -/
theorem swapper_complete_latch (pt t0 t1 t2 t3 : ℚ) (c1 c2 c3 : Bool)
    (hpt : 0 < pt) (h1 : pt ≤ t1 - t0) :
    let s0 : SwapperHW := { ton := { pt := pt } }
    let a := s0.step true t0
    let b := a.step c1 t1
    let c := b.step c2 t2
    let d := c.step c3 t3
    (a.busy = true ∧ a.ready = false ∧ a.complete = false) ∧
    (∀ tm : ℚ, ∀ cm : Bool, tm - t0 < pt →
      (a.step cm tm).busy = true ∧ (a.step cm tm).ready = false ∧
        (a.step cm tm).complete = false) ∧
    (b.complete = true ∧ b.busy = false ∧ b.ready = false ∧ b.latched = 1) ∧
    (c.complete = true ∧ c.busy = false ∧ c.ready = false ∧ c.latched = 0) ∧
    (d.complete = false ∧ d.ready = true ∧ d.busy = false) := by
  intro s0 a b c d
  have ha : a = { ready := false, busy := true, complete := false,
                  ton := { pt := pt, start := some t0, q := false, et := 0 },
                  latched := 0 } := by
    show SwapperHW.step s0 true t0 = _
    simp [SwapperHW.step, TON.update, s0, hpt.not_le]
  have hb : b = { ready := false, busy := false, complete := true,
                  ton := { pt := pt, start := none, q := false, et := 0 },
                  latched := 1 } := by
    show SwapperHW.step a c1 t1 = _
    rw [ha]
    simp [SwapperHW.step, TON.update, h1]
  have hc : c = { ready := false, busy := false, complete := true,
                  ton := { pt := pt, start := none, q := false, et := 0 },
                  latched := 0 } := by
    show SwapperHW.step b c2 t2 = _
    rw [hb]
    simp [SwapperHW.step, TON.update]
  have hd : d = { ready := true, busy := false, complete := false,
                  ton := { pt := pt, start := none, q := false, et := 0 },
                  latched := 0 } := by
    show SwapperHW.step c c3 t3 = _
    rw [hc]
    simp [SwapperHW.step, TON.update]
  refine ⟨by rw [ha]; exact ⟨rfl, rfl, rfl⟩, ?_,
    by rw [hb]; exact ⟨rfl, rfl, rfl, rfl⟩,
    by rw [hc]; exact ⟨rfl, rfl, rfl, rfl⟩,
    by rw [hd]; exact ⟨rfl, rfl, rfl⟩⟩
  intro tm cm hm
  rw [ha]
  simp [SwapperHW.step, TON.update, hm.not_le]

/-- Witness for C5: a unit with duration 1, commanded at time 0, observed at
times 2, 3, 4 without further commands. -/
theorem swapper_complete_latch_witness :
    ((0 : ℚ) < 1 ∧ (1 : ℚ) ≤ 2 - 0) ∧
    (let s0 : SwapperHW := { ton := { pt := 1 } }
     let a := s0.step true 0
     let b := a.step false 2
     let c := b.step false 3
     let d := c.step false 4
     (a.busy = true ∧ a.ready = false ∧ a.complete = false) ∧
     (∀ tm : ℚ, ∀ cm : Bool, tm - 0 < 1 →
       (a.step cm tm).busy = true ∧ (a.step cm tm).ready = false ∧
         (a.step cm tm).complete = false) ∧
     (b.complete = true ∧ b.busy = false ∧ b.ready = false ∧ b.latched = 1) ∧
     (c.complete = true ∧ c.busy = false ∧ c.ready = false ∧ c.latched = 0) ∧
     (d.complete = false ∧ d.ready = true ∧ d.busy = false)) :=
  ⟨⟨by norm_num, by norm_num⟩,
    swapper_complete_latch 1 0 2 3 4 false false false (by norm_num) (by norm_num)⟩

/-! ### C2: no-overlap on gap-enforcing belts -/

/-- The follower loop of a COLLECT-mode belt tick keeps the minimum-gap
chain and the position bounds, provided they held before the tick and the
(already moved) leader did not move backwards. -/
theorem belt_followers_gap (sp gap L : ℚ) (hsp : 0 ≤ sp) :
    ∀ (rest : List Moving) (ahead ahead' : Moving),
      List.Chain' (fun a b : Moving => b.pos ≤ a.pos - gap) (ahead :: rest) →
      (∀ m ∈ rest, 0 ≤ m.pos ∧ m.pos ≤ L) →
      ahead.pos ≤ ahead'.pos → ahead'.pos ≤ L →
      List.Chain' (fun a b : Moving => b.pos ≤ a.pos - gap)
        (ahead' :: belt_followers sp gap L false ahead' rest) ∧
      ∀ m' ∈ belt_followers sp gap L false ahead' rest, 0 ≤ m'.pos ∧ m'.pos ≤ L := by
  have hDT : 0 ≤ sp * DT := mul_nonneg hsp (by norm_num [DT])
  intro rest
  induction rest with
  | nil =>
      intro ahead ahead' _ _ _ _
      exact ⟨List.chain'_singleton _, by simp [belt_followers]⟩
  | cons m rest ih =>
      intro ahead ahead' hchain hbound hmono hle
      have h0m : 0 ≤ m.pos := (hbound m (List.mem_cons_self _ _)).1
      have hmL : m.pos ≤ L := (hbound m (List.mem_cons_self _ _)).2
      have hcg : m.pos ≤ ahead.pos - gap := (List.chain'_cons.mp hchain).1
      have hge : m.pos ≤ min (m.pos + sp * DT) (min (ahead'.pos - gap) L) := by
        refine le_min (by linarith) (le_min (by linarith) hmL)
      have hmax : max 0 (min (m.pos + sp * DT) (min (ahead'.pos - gap) L)) =
          min (m.pos + sp * DT) (min (ahead'.pos - gap) L) :=
        max_eq_right (le_trans h0m hge)
      have hstep : belt_followers sp gap L false ahead' (m :: rest) =
          { m with pos := max 0 (min (m.pos + sp * DT) (min (ahead'.pos - gap) L)) } ::
            belt_followers sp gap L false
              { m with pos := max 0 (min (m.pos + sp * DT) (min (ahead'.pos - gap) L)) }
              rest := by
        simp [belt_followers]
      set m' : Moving :=
        { m with pos := max 0 (min (m.pos + sp * DT) (min (ahead'.pos - gap) L)) } with hm'
      have hp0 : 0 ≤ m'.pos := le_max_left _ _
      have hpL : m'.pos ≤ L := by
        rw [hm']
        simp only [hmax]
        exact le_trans (min_le_right _ _) (min_le_right _ _)
      have hpg : m'.pos ≤ ahead'.pos - gap := by
        rw [hm']
        simp only [hmax]
        exact le_trans (min_le_right _ _) (min_le_left _ _)
      have hmm : m.pos ≤ m'.pos := by
        rw [hm']
        simp only [hmax]
        exact hge
      have htail := ih m m' (List.chain'_cons.mp hchain).2
        (fun x hx => hbound x (List.mem_cons_of_mem _ hx)) hmm hpL
      rw [hstep]
      refine ⟨List.chain'_cons.mpr ⟨hpg, htail.1⟩, ?_⟩
      intro x hx
      rcases List.mem_cons.mp hx with h | h
      · subst h; exact ⟨hp0, hpL⟩
      · exact htail.2 x h

/-- Claim C2 (amended): a COLLECT-mode belt tick (`allow_exit = false`)
preserves the no-overlap invariant: if, in descending-position order, every
adjacent pair of the belt satisfied `follower.pos ≤ leader.pos - gap` and
all positions lay in `[0, BELT_LEN_M]` before the tick, the same gap
property holds after the tick. -/
theorem belt_gap_preserved (sp : ℚ) (seg : List Moving) (hsp : 0 ≤ sp)
    (hchain : List.Chain' (fun a b : Moving => b.pos ≤ a.pos - belt_gap)
      (List.insertionSort (fun a b : Moving => b.pos ≤ a.pos) seg))
    (hbound : ∀ m ∈ seg, 0 ≤ m.pos ∧ m.pos ≤ BELT_LEN_M) :
    List.Chain' (fun a b : Moving => b.pos ≤ a.pos - belt_gap)
      (belt_advance sp belt_gap BELT_LEN_M false seg) := by
  have hbs : ∀ m ∈ List.insertionSort (fun a b : Moving => b.pos ≤ a.pos) seg,
      0 ≤ m.pos ∧ m.pos ≤ BELT_LEN_M := by
    intro m hm
    exact hbound m ((List.perm_insertionSort _ seg).mem_iff.mp hm)
  unfold belt_advance
  cases hs : List.insertionSort (fun a b : Moving => b.pos ≤ a.pos) seg with
  | nil => simp
  | cons leader rest =>
      rw [hs] at hchain hbs
      have hlead : leader.pos ≤ BELT_LEN_M := (hbs leader (List.mem_cons_self _ _)).2
      have hmono : leader.pos ≤ min (leader.pos + sp * DT) BELT_LEN_M :=
        le_min (by nlinarith [mul_nonneg hsp (show (0:ℚ) ≤ DT by norm_num [DT])]) hlead
      have := belt_followers_gap sp belt_gap BELT_LEN_M hsp rest leader
        { leader with pos := min (leader.pos + sp * DT) BELT_LEN_M }
        hchain (fun m hm => hbs m (List.mem_cons_of_mem _ hm))
        hmono (min_le_right _ _)
      simpa using this.1

/-- A belt with two items at position 0, as arises when two arrivals are
assigned to the same belt (or when more items share a belt than gaps fit). -/
def demo_belt_overfull : List Moving :=
  [{ id := 1, seg := "B1", pos := 0, length := 8, speed := 1 },
   { id := 2, seg := "B1", pos := 0, length := 8, speed := 1 }]

/-- Claim C2 counterexample: after a COLLECT-mode tick on a belt holding two
items at position 0, the follower is floored at position 0 (the `max(0.0,..)`
clamp) while the leader is at `0.1`, violating
`follower.pos ≤ leader.pos - minGap` with `minGap = 2.8`. -/
theorem belt_gap_violation :
    ¬ List.Chain' (fun a b : Moving => b.pos ≤ a.pos - belt_gap)
      (belt_advance SPEED_COLLECT belt_gap BELT_LEN_M false demo_belt_overfull) := by
  have hsort : List.insertionSort (fun a b : Moving => b.pos ≤ a.pos) demo_belt_overfull =
      demo_belt_overfull := by
    simp [demo_belt_overfull, List.insertionSort, List.orderedInsert]
  unfold belt_advance
  rw [hsort]
  simp only [demo_belt_overfull, belt_followers, List.chain'_cons]
  intro h
  have h1 := h.1
  norm_num [belt_gap, BELT_LEN_M, SPEED_COLLECT, DT, min_def, max_def] at h1

/-- Witness for C2 (amended): a belt with items at positions 5 and 1 (gap
4 ≥ 2.8) keeps the gap property through a COLLECT tick. -/
theorem belt_gap_preserved_witness :
    List.Chain' (fun a b : Moving => b.pos ≤ a.pos - belt_gap)
      (belt_advance SPEED_COLLECT belt_gap BELT_LEN_M false
        [{ id := 1, seg := "B1", pos := 5, length := 8, speed := 1 },
         { id := 2, seg := "B1", pos := 1, length := 8, speed := 1 }]) := by
  refine belt_gap_preserved SPEED_COLLECT _ (by norm_num [SPEED_COLLECT]) ?_ ?_
  · have hsort : List.insertionSort (fun a b : Moving => b.pos ≤ a.pos)
        [({ id := 1, seg := "B1", pos := 5, length := 8, speed := 1 } : Moving),
         { id := 2, seg := "B1", pos := 1, length := 8, speed := 1 }] =
        [{ id := 1, seg := "B1", pos := 5, length := 8, speed := 1 },
         { id := 2, seg := "B1", pos := 1, length := 8, speed := 1 }] := by
      norm_num [List.insertionSort, List.orderedInsert]
    rw [hsort]
    rw [List.chain'_cons]
    refine ⟨by norm_num [belt_gap, BELT_LEN_M], List.chain'_singleton _⟩
  · intro m hm
    rcases List.mem_cons.mp hm with h | hm2
    · subst h; norm_num [BELT_LEN_M]
    · rcases List.mem_cons.mp hm2 with h | h
      · subst h; norm_num [BELT_LEN_M]
      · simp at h

/-! ### C6: switch-point hand-off -/

theorem qmod_eq_add_of_neg (x y : ℚ) (h0 : -y < x) (h1 : x < 0) (hy : 0 < y) :
    qmod x y = x + y := by
  have : ⌊x / y⌋ = -1 := by
    rw [Int.floor_eq_iff]
    constructor
    · push_cast
      rw [le_div_iff₀ hy]; linarith
    · push_cast
      rw [div_lt_iff₀ hy]; linarith
  rw [qmod, this]
  push_cast
  ring

/-- Modelled from the spec: the item moved from strictly before the switch
point to at/after it within the tick — the forward distance (around the
loop) from its previous position to the switch point is positive and at
most the distance travelled. -/
def spec_crossed_strict (prev d : ℚ) : Prop :=
  0 < qmod (SW_POS_M - prev) LOAD_LOOP_LEN_M ∧
    qmod (SW_POS_M - prev) LOAD_LOOP_LEN_M ≤ d

/-- Modelled from the spec, weakened at one boundary point: the forward
distance from the previous position to the switch point (zero for an item
exactly at the switch point) is at most the distance travelled. -/
def spec_crossed (prev d : ℚ) : Prop :=
  qmod (SW_POS_M - prev) LOAD_LOOP_LEN_M ≤ d

/-- The code's crossing test agrees with the (inclusive) forward-distance
characterisation for every on-loop position and positive speed travelling
at most half the loop per tick. -/
theorem crossedB_eq_true_iff (sp prev now : ℚ) :
    crossedB sp prev now = true ↔
      0 < sp ∧ ((prev ≤ SW_POS_M ∧ SW_POS_M ≤ now ∧ now - prev ≤ LOAD_LOOP_LEN_M / 2) ∨
        (prev > now ∧ (SW_POS_M ≥ prev ∨ SW_POS_M ≤ now))) := by
  unfold crossedB
  rw [Bool.and_eq_true, Bool.or_eq_true, Bool.and_eq_true, Bool.and_eq_true,
    Bool.and_eq_true, Bool.or_eq_true]
  simp only [decide_eq_true_eq]
  tauto

theorem crossed_iff_spec (prev sp : ℚ) (h0 : 0 ≤ prev) (h1 : prev < LOAD_LOOP_LEN_M)
    (hsp : 0 < sp) (hd : sp * DT ≤ LOAD_LOOP_LEN_M / 2) :
    (crossedB sp prev (qmod (prev + sp * DT) LOAD_LOOP_LEN_M) = true ↔
      spec_crossed prev (sp * DT)) := by
  have hL : LOAD_LOOP_LEN_M = (120 : ℚ) := rfl
  have hSW : SW_POS_M = (60 : ℚ) := rfl
  set d := sp * DT with hdd
  have hd0 : 0 < d := mul_pos hsp (by norm_num [DT])
  rw [hL] at h1 hd
  rw [crossedB_eq_true_iff]
  simp only [spec_crossed, hL, hSW]
  rw [show (120 : ℚ) / 2 = 60 by norm_num] at hd ⊢
  by_cases hnw : prev + d < 120
  · rw [qmod_eq_of_mem (prev + d) 120 (by linarith) hnw]
    by_cases hp : prev ≤ 60
    · rw [qmod_eq_of_mem (60 - prev) 120 (by linarith) (by linarith)]
      constructor
      · rintro ⟨-, ⟨-, hcr, -⟩ | ⟨hwr, -⟩⟩
        · linarith
        · exfalso; linarith
      · intro hm
        exact ⟨hsp, Or.inl ⟨hp, by linarith, by linarith⟩⟩
    · push_neg at hp
      rw [qmod_eq_add_of_neg (60 - prev) 120 (by linarith) (by linarith) (by norm_num)]
      constructor
      · rintro ⟨-, ⟨hple, -⟩ | ⟨hwr, -⟩⟩
        · exfalso; linarith
        · exfalso; linarith
      · intro hm; exfalso; linarith
  · push_neg at hnw
    rw [qmod_eq_sub_of_mem (prev + d) 120 hnw (by linarith) (by norm_num)]
    have hprev60 : 60 ≤ prev := by linarith
    have hnowlt : prev + d - 120 < 60 := by linarith
    by_cases hp : prev = 60
    · subst hp
      rw [show (60 : ℚ) - 60 = 0 by norm_num,
        qmod_eq_of_mem 0 120 le_rfl (by norm_num)]
      constructor
      · intro _; linarith
      · intro _
        exact ⟨hsp, Or.inr ⟨by linarith, Or.inl (by norm_num)⟩⟩
    · have hgt : 60 < prev := lt_of_le_of_ne hprev60 (fun h => hp h.symm)
      rw [qmod_eq_add_of_neg (60 - prev) 120 (by linarith) (by linarith) (by norm_num)]
      constructor
      · rintro ⟨-, ⟨hple, -⟩ | ⟨-, h60 | h60⟩⟩
        · exfalso; linarith
        · exfalso; linarith
        · exfalso; linarith
      · intro hm; exfalso; linarith

/-- Claim C6 counterexample against the strict reading "moved from before to
at/after": an item exactly at the switch position (prev = 60) is detected as
crossing by the code (its previous position satisfies `prev <= SW_POS_M`
inclusively), although it did not move from strictly before the switch. -/
theorem switch_crossing_strict_counterexample :
    crossedB 1 60 (qmod (60 + 1 * DT) LOAD_LOOP_LEN_M) = true ∧
      ¬ spec_crossed_strict 60 (1 * DT) := by
  constructor
  · rw [show qmod (60 + 1 * DT) LOAD_LOOP_LEN_M = 60 + 1 * DT from
      qmod_eq_of_mem _ _ (by norm_num [DT]) (by norm_num [DT, LOAD_LOOP_LEN_M])]
    norm_num [crossedB, SW_POS_M, LOAD_LOOP_LEN_M, DT, Bool.and_eq_true,
      Bool.or_eq_true, decide_eq_true_eq]
  · intro h
    unfold spec_crossed_strict at h
    rw [show SW_POS_M - (60 : ℚ) = 0 by norm_num [SW_POS_M],
      qmod_eq_of_mem 0 LOAD_LOOP_LEN_M le_rfl (by norm_num [LOAD_LOOP_LEN_M])] at h
    exact lt_irrefl 0 h.1

instance : IsTotal Moving (fun a b : Moving => a.pos ≤ b.pos) :=
  ⟨fun a b => le_total a.pos b.pos⟩

instance : IsTrans Moving (fun a b : Moving => a.pos ≤ b.pos) :=
  ⟨fun _ _ _ h1 h2 => le_trans h1 h2⟩

theorem serp_length_eq : SERP_ORDER.length = BELTS_R * BELTS_C := by decide

theorem serp_mem_bounds : ∀ x ∈ SERP_ORDER, 1 ≤ x ∧ x ≤ BELTS_R * BELTS_C := by decide

theorem serp_getD_mem (k : ℕ) :
    SERP_ORDER.getD (k % (BELTS_R * BELTS_C)) 0 ∈ SERP_ORDER := by
  have hlt : k % (BELTS_R * BELTS_C) < SERP_ORDER.length := by
    rw [serp_length_eq]
    exact Nat.mod_lt _ (by norm_num [BELTS_R, BELTS_C])
  rw [List.getD_eq_getElem?_getD, List.getElem?_eq_getElem hlt]
  simp only [Option.getD_some]
  exact List.getElem_mem hlt

theorem getD_set_lt {α : Type} (l : List α) (i j : ℕ) (v d : α) (h : i < l.length) :
    (l.set i v).getD j d = if i = j then v else l.getD j d := by
  by_cases hij : i = j
  · subst hij
    simp [List.getD_eq_getElem?_getD, List.getElem?_set, h]
  · simp [List.getD_eq_getElem?_getD, List.getElem?_set, hij]

/-- Modelled from the spec: round-robin following the serpentine sequence —
the k-th arrival of a batch (k = 0, 1, ...) is assigned to belt
`SERP_ORDER[(rr + k) % 42]`.  The value is the list of entries the batch
contributes to belt `b`, in batch order. -/
def spec_round_robin (speedB : ℚ) (b rr : ℕ) (ms : List Moving) : List Moving :=
  (ms.enum.filter
      (fun p => decide (SERP_ORDER.getD ((rr + p.1) % (BELTS_R * BELTS_C)) 0 = b))).map
    (fun p => mk_belt_item b speedB p.2)

theorem enumFrom_shift {α : Type} (ms : List α) :
    ∀ n : ℕ, ms.enumFrom (n + 1) = (ms.enumFrom n).map (fun p => (p.1 + 1, p.2)) := by
  induction ms with
  | nil => intro n; rfl
  | cons a as ih =>
      intro n
      simp only [List.enumFrom_cons, List.map_cons]
      rw [ih (n + 1)]

theorem spec_round_robin_cons (speedB : ℚ) (b rr : ℕ) (m : Moving) (ms : List Moving) :
    spec_round_robin speedB b rr (m :: ms) =
      (if SERP_ORDER.getD (rr % (BELTS_R * BELTS_C)) 0 = b
        then [mk_belt_item b speedB m] else []) ++
        spec_round_robin speedB b (rr + 1) ms := by
  unfold spec_round_robin
  have henum : (m :: ms).enum = (0, m) :: ms.enumFrom 1 := by
    simp [List.enum_cons]
  have hshift : ms.enumFrom 1 = (ms.enum).map (fun p => (p.1 + 1, p.2)) := by
    simpa using enumFrom_shift ms 0
  have hmain : (List.filter
      (fun p => decide (SERP_ORDER.getD ((rr + p.1) % (BELTS_R * BELTS_C)) 0 = b))
      (ms.enumFrom 1)).map (fun p => mk_belt_item b speedB p.2) =
      (List.filter
        (fun p => decide (SERP_ORDER.getD ((rr + 1 + p.1) % (BELTS_R * BELTS_C)) 0 = b))
        ms.enum).map (fun p => mk_belt_item b speedB p.2) := by
    rw [hshift, List.filter_map, List.map_map]
    congr 1
    apply List.filter_congr
    intro p _
    simp only [Function.comp_apply]
    rw [show rr + (p.1 + 1) = rr + 1 + p.1 from by omega]
  rw [henum, List.filter_cons]
  by_cases hb : SERP_ORDER.getD (rr % (BELTS_R * BELTS_C)) 0 = b
  · rw [if_pos (by simpa using hb), if_pos hb]
    simp only [List.map_cons, List.singleton_append]
    rw [← hmain]
  · rw [if_neg (by simpa using hb), if_neg hb]
    simp only [List.nil_append]
    rw [← hmain]

/-- The assignment loop distributes a batch round-robin along the serpentine
order: the final round-robin counter advances by the batch size, the belt
list keeps its length, and every belt `b` receives exactly the entries the
round-robin specification assigns to it, appended in batch order. -/
theorem assign_arrivals_spec (speedB : ℚ) :
    ∀ (ms : List Moving) (belts : List (List Moving)) (rr : ℕ),
      belts.length = BELTS_R * BELTS_C →
      (assign_arrivals speedB belts rr ms).2 = rr + ms.length ∧
      (assign_arrivals speedB belts rr ms).1.length = belts.length ∧
      ∀ b : ℕ, 1 ≤ b → b ≤ BELTS_R * BELTS_C →
        (assign_arrivals speedB belts rr ms).1.getD (b - 1) [] =
          belts.getD (b - 1) [] ++ spec_round_robin speedB b rr ms := by
  intro ms
  induction ms with
  | nil =>
      intro belts rr _
      refine ⟨rfl, rfl, fun b _ _ => ?_⟩
      simp [assign_arrivals, spec_round_robin]
  | cons m rest ih =>
      intro belts rr hlen
      have hb0 := serp_mem_bounds _ (serp_getD_mem rr)
      set b0 := SERP_ORDER.getD (rr % (BELTS_R * BELTS_C)) 0 with hb0def
      have hb0lt : b0 - 1 < belts.length := by omega
      have hset : (belts.set (b0 - 1) (belts.getD (b0 - 1) [] ++ [mk_belt_item b0 speedB m])).length =
          BELTS_R * BELTS_C := by
        rw [List.length_set, hlen]
      have hrec := ih
        (belts.set (b0 - 1) (belts.getD (b0 - 1) [] ++ [mk_belt_item b0 speedB m]))
        (rr + 1) hset
      have hstep : assign_arrivals speedB belts rr (m :: rest) =
          assign_arrivals speedB
            (belts.set (b0 - 1) (belts.getD (b0 - 1) [] ++ [mk_belt_item b0 speedB m]))
            (rr + 1) rest := rfl
      rw [hstep]
      refine ⟨by rw [hrec.1]; simp [List.length_cons]; omega,
        by rw [hrec.2.1, List.length_set], ?_⟩
      intro b hb1 hb2
      rw [hrec.2.2 b hb1 hb2]
      rw [getD_set_lt _ _ _ _ _ hb0lt]
      rw [spec_round_robin_cons]
      by_cases heq : b0 = b
      · rw [if_pos (by omega), if_pos heq]
        rw [heq]
        simp [List.append_assoc]
      · rw [if_neg (by omega), if_neg heq]
        simp

/-- Claim C6 (amended): (i) an item on the circular intake loop is detected
as crossing in a tick iff the switch point lies within the distance it
travelled this tick, measured forward from its previous position around the
loop — "from before to at/after" holding inclusively: an item exactly at
the switch position also counts, which is the one boundary case where the
spec's strict wording fails; the wraparound case where the position
numerically decreases is included.  (ii) The arrivals of a tick are sorted
by resulting position ascending.  (iii) In that order they are assigned to
belts round-robin following the serpentine sequence. -/
theorem load_handoff_spec :
    (∀ prev sp : ℚ, 0 ≤ prev → prev < LOAD_LOOP_LEN_M → 0 < sp →
      sp * DT ≤ LOAD_LOOP_LEN_M / 2 →
      (crossedB sp prev (qmod (prev + sp * DT) LOAD_LOOP_LEN_M) = true ↔
        spec_crossed prev (sp * DT))) ∧
    (∀ (sp : ℚ) (loop : List Moving),
      List.Sorted (fun a b : Moving => a.pos ≤ b.pos) (load_arrivals_sorted sp loop)) ∧
    (∀ (speedB : ℚ) (ms : List Moving) (belts : List (List Moving)) (rr : ℕ),
      belts.length = BELTS_R * BELTS_C →
      (assign_arrivals speedB belts rr ms).2 = rr + ms.length ∧
      ∀ b : ℕ, 1 ≤ b → b ≤ BELTS_R * BELTS_C →
        (assign_arrivals speedB belts rr ms).1.getD (b - 1) [] =
          belts.getD (b - 1) [] ++ spec_round_robin speedB b rr ms) := by
  refine ⟨crossed_iff_spec, ?_, ?_⟩
  · intro sp loop
    exact List.sorted_insertionSort _ _
  · intro speedB ms belts rr hlen
    exact ⟨(assign_arrivals_spec speedB ms belts rr hlen).1,
      (assign_arrivals_spec speedB ms belts rr hlen).2.2⟩

/-- Witness for C6: the crossing test at `prev = 59`, `sp = 1` (the item
steps from 59 to 59.1, not reaching the switch at 60: both sides false), the
sortedness of a concrete arrival batch, and the round-robin conclusion for a
singleton batch on the 42-belt grid. -/
theorem load_handoff_spec_witness :
    ((0 : ℚ) ≤ 59 ∧ (59 : ℚ) < LOAD_LOOP_LEN_M ∧ (0 : ℚ) < 1 ∧
      (1 : ℚ) * DT ≤ LOAD_LOOP_LEN_M / 2) ∧
    (crossedB 1 59 (qmod (59 + 1 * DT) LOAD_LOOP_LEN_M) = true ↔
      spec_crossed 59 (1 * DT)) ∧
    List.Sorted (fun a b : Moving => a.pos ≤ b.pos) (load_arrivals_sorted 1 []) ∧
    ((assign_arrivals 1 (List.replicate (BELTS_R * BELTS_C) []) 0
        [{ id := 7, seg := "LOAD", pos := 60, length := 120, speed := 1, wrap := true }]).2 =
      0 + 1) := by
  have hhyp : (0 : ℚ) ≤ 59 ∧ (59 : ℚ) < LOAD_LOOP_LEN_M ∧ (0 : ℚ) < 1 ∧
      (1 : ℚ) * DT ≤ LOAD_LOOP_LEN_M / 2 := by
    norm_num [LOAD_LOOP_LEN_M, DT]
  refine ⟨hhyp, load_handoff_spec.1 59 1 hhyp.1 hhyp.2.1 hhyp.2.2.1 hhyp.2.2.2,
    load_handoff_spec.2.1 1 [], ?_⟩
  have hlen : (List.replicate (BELTS_R * BELTS_C) ([] : List Moving)).length =
      BELTS_R * BELTS_C := by
    simp
  exact ((load_handoff_spec.2.2 1
    [{ id := 7, seg := "LOAD", pos := 60, length := 120, speed := 1, wrap := true }]
    (List.replicate (BELTS_R * BELTS_C) []) 0) hlen).1

/-! ### C1: item conservation

The conserved quantity is the multiset of item identifiers across the whole
system (load loop, belts, line2, both unload lines, and the completed log);
spawning adds exactly the fresh identifiers, every other step permutes
them. -/

/-- The multiset of item ids of a segment population. -/
def idsM (l : List Moving) : Multiset ℕ := (l.map Moving.id : List ℕ)

/-- The multiset of item ids over the whole belt grid. -/
def beltsM (bl : List (List Moving)) : Multiset ℕ := (bl.map idsM).sum

def ConveyorSystem.allIds (s : ConveyorSystem) : Multiset ℕ :=
  idsM s.load_loop + beltsM s.belts + idsM s.line2 + idsM s.unl1 + idsM s.unl2 +
    (s.done_log : Multiset ℕ)

def ConveyorSystem.total_count (s : ConveyorSystem) : ℕ :=
  s.load_loop.length + (s.belts.map List.length).sum + s.line2.length +
    s.unl1.length + s.unl2.length + s.done_log.length

theorem card_idsM (l : List Moving) : Multiset.card (idsM l) = l.length := by
  simp [idsM]

theorem card_beltsM (bl : List (List Moving)) :
    Multiset.card (beltsM bl) = (bl.map List.length).sum := by
  induction bl with
  | nil => rfl
  | cons b bl ih =>
      simp only [beltsM, List.map_cons, List.sum_cons, Multiset.card_add] at ih ⊢
      rw [card_idsM, ih]

theorem card_allIds (s : ConveyorSystem) :
    Multiset.card s.allIds = s.total_count := by
  simp only [ConveyorSystem.allIds, ConveyorSystem.total_count, Multiset.card_add,
    card_idsM, card_beltsM, Multiset.coe_card]

/-- The conveyor-core system invariant: all item ids across the system are
distinct and below `next_id`, the belt grid has its fixed size, and the id
counter counts the items (conservation). -/
def Inv (s : ConveyorSystem) : Prop :=
  s.allIds.Nodup ∧ (∀ i ∈ s.allIds, i < s.next_id) ∧
    s.belts.length = BELTS_R * BELTS_C ∧ s.next_id = s.total_count + 1

theorem Inv_of_eq {s s' : ConveyorSystem} (h : Inv s) (hall : s'.allIds = s.allIds)
    (hnext : s'.next_id = s.next_id) (hlen : s'.belts.length = s.belts.length) :
    Inv s' := by
  obtain ⟨hnd, hbound, hblen, hcount⟩ := h
  refine ⟨hall ▸ hnd, ?_, hlen.trans hblen, ?_⟩
  · intro i hi
    rw [hall] at hi
    rw [hnext]
    exact hbound i hi
  · have h1 : s'.total_count = s.total_count := by
      rw [← card_allIds, ← card_allIds, hall]
    rw [hnext, h1]
    exact hcount

/-- Items whose ids appear among the ids of a filtered sublist are exactly
the items satisfying the filter, provided ids are distinct. -/
theorem filter_mem_ids {α : Type} (f : α → ℕ) (p : α → Bool) (l : List α)
    (hnd : (l.map f).Nodup) :
    l.filter (fun a => !decide (f a ∈ (l.filter p).map f)) =
      l.filter (fun a => !p a) := by
  apply List.filter_congr
  intro a ha
  have hiff : (f a ∈ (l.filter p).map f) ↔ p a = true := by
    constructor
    · intro hm
      obtain ⟨b, hb, hfb⟩ := List.mem_map.mp hm
      have hbl : b ∈ l := List.mem_of_mem_filter hb
      have hba : b = a := List.inj_on_of_nodup_map hnd hbl ha hfb
      exact hba ▸ List.of_mem_filter hb
    · intro hpa
      exact List.mem_map.mpr ⟨a, List.mem_filter.mpr ⟨ha, hpa⟩, rfl⟩
  by_cases hpa : p a = true
  · simp [hpa, hiff.mpr hpa]
  · have : ¬ f a ∈ (l.filter p).map f := fun hm => hpa (hiff.mp hm)
    simp [hpa, this]

/-- Filtering out the members of a value-level filter is filtering by the
negated predicate (no distinctness needed: membership is by value). -/
theorem filter_not_mem_filter (l : List Moving) (p : Moving → Bool) :
    l.filter (fun m => !decide (m ∈ l.filter p)) = l.filter (fun m => !p m) := by
  apply List.filter_congr
  intro a ha
  by_cases hpa : p a = true
  · simp [hpa, List.mem_filter.mpr ⟨ha, hpa⟩]
  · have : ¬ a ∈ l.filter p := fun hm => hpa (List.of_mem_filter hm)
    simp [hpa, this]

theorem idsM_filter_split {α : Type} (f : α → ℕ) (p : α → Bool) (l : List α) :
    (((l.filter p).map f : List ℕ) : Multiset ℕ) +
        ((l.filter (fun a => !p a)).map f : List ℕ) = ((l.map f : List ℕ) : Multiset ℕ) := by
  rw [Multiset.coe_add, ← List.map_append, Multiset.coe_eq_coe]
  exact (List.filter_append_perm p l).map f

theorem beltsM_set (v : List Moving) :
    ∀ (bl : List (List Moving)) (i : ℕ), i < bl.length →
      beltsM (bl.set i v) + idsM (bl.getD i []) = beltsM bl + idsM v := by
  intro bl
  induction bl with
  | nil => intro i hi; simp at hi
  | cons hd tl ih =>
      intro i hi
      cases i with
      | zero =>
          simp only [List.set, List.getD_cons_zero, beltsM, List.map_cons, List.sum_cons]
          abel
      | succ i =>
          simp only [List.set, List.getD_cons_succ, beltsM, List.map_cons, List.sum_cons]
          have := ih i (by simpa using hi)
          simp only [beltsM] at this
          rw [add_assoc, this]
          abel

theorem step_id (m : Moving) (sp dt : ℚ) :
    (Moving.step { m with speed := sp } dt).id = m.id := by
  unfold Moving.step
  split <;> rfl

theorem map_id_map_step (sp : ℚ) (l : List Moving) :
    ((l.map (fun m => Moving.step { m with speed := sp } DT)).map Moving.id) =
      l.map Moving.id := by
  rw [List.map_map]
  apply List.map_congr_left
  intro m _
  exact step_id m sp DT

theorem idsM_map_step (sp : ℚ) (l : List Moving) :
    idsM (l.map (fun m => Moving.step { m with speed := sp } DT)) = idsM l := by
  unfold idsM
  rw [map_id_map_step]

theorem idsM_append (l1 l2 : List Moving) : idsM (l1 ++ l2) = idsM l1 + idsM l2 := by
  simp [idsM]

theorem idsM_singleton (m : Moving) : idsM [m] = {m.id} := rfl

theorem allIds_spawn_one (s : ConveyorSystem) (st : ℕ) :
    (s.spawn_one st).allIds = s.allIds + {s.next_id} := by
  unfold ConveyorSystem.allIds ConveyorSystem.spawn_one
  simp only [idsM_append, idsM_singleton]
  abel

theorem Inv_spawn_one {s : ConveyorSystem} (st : ℕ) (h : Inv s) :
    Inv (s.spawn_one st) := by
  obtain ⟨hnd, hbound, hblen, hcount⟩ := h
  have hall := allIds_spawn_one s st
  refine ⟨?_, ?_, hblen, ?_⟩
  · rw [hall]
    rw [Multiset.nodup_add]
    refine ⟨hnd, Multiset.nodup_singleton _, ?_⟩
    rw [Multiset.disjoint_singleton]
    intro hmem
    exact absurd (hbound _ hmem) (lt_irrefl _)
  · intro i hi
    rw [hall] at hi
    rcases Multiset.mem_add.mp hi with hi | hi
    · exact lt_trans (hbound i hi) (Nat.lt_succ_self _)
    · rw [Multiset.mem_singleton.mp hi]
      exact Nat.lt_succ_self _
  · show s.next_id + 1 = _
    have : (s.spawn_one st).total_count = s.total_count + 1 := by
      rw [← card_allIds, ← card_allIds, hall]
      simp
    rw [this, hcount]

theorem Inv_spawn_iterate {s : ConveyorSystem} (st n : ℕ) (h : Inv s) :
    Inv ((fun q => ConveyorSystem.spawn_one q st)^[n] s) := by
  induction n generalizing s with
  | zero => exact h
  | succ n ih =>
      rw [Function.iterate_succ_apply]
      exact ih (Inv_spawn_one st h)

theorem Inv_spawn {s : ConveyorSystem} (counts : List ℕ) (h : Inv s) :
    Inv (s.spawn counts) := by
  unfold ConveyorSystem.spawn
  generalize counts.enum = l
  induction l generalizing s with
  | nil => exact h
  | cons p l ih =>
      rw [List.foldl_cons]
      exact ih (Inv_spawn_iterate (p.1 + 1) p.2 h)

theorem idsM_belt_followers (sp gap L : ℚ) (allow : Bool) :
    ∀ (rest : List Moving) (ahead : Moving),
      idsM (belt_followers sp gap L allow ahead rest) = idsM rest := by
  intro rest
  induction rest with
  | nil => intro ahead; rfl
  | cons m rest ih =>
      intro ahead
      show idsM (_ :: belt_followers sp gap L allow _ rest) = _
      unfold idsM
      simp only [List.map_cons]
      rw [Multiset.coe_eq_coe]
      apply List.Perm.cons
      rw [← Multiset.coe_eq_coe]
      exact ih _

theorem idsM_belt_advance (sp gap L : ℚ) (allow : Bool) (seg : List Moving) :
    idsM (belt_advance sp gap L allow seg) = idsM seg := by
  have hperm : idsM (List.insertionSort (fun a b : Moving => b.pos ≤ a.pos) seg) =
      idsM seg := by
    unfold idsM
    rw [Multiset.coe_eq_coe]
    exact (List.perm_insertionSort _ seg).map Moving.id
  unfold belt_advance
  cases hs : List.insertionSort (fun a b : Moving => b.pos ≤ a.pos) seg with
  | nil =>
      rw [hs] at hperm
      exact hperm
  | cons leader rest =>
      rw [hs] at hperm
      rw [← hperm]
      show idsM (_ :: belt_followers sp gap L allow _ rest) = _
      unfold idsM
      simp only [List.map_cons]
      rw [Multiset.coe_eq_coe]
      apply List.Perm.cons
      rw [← Multiset.coe_eq_coe]
      exact idsM_belt_followers sp gap L allow rest _

theorem idsM_cons (m : Moving) (l : List Moving) : idsM (m :: l) = {m.id} + idsM l := by
  unfold idsM
  rw [List.map_cons, ← Multiset.cons_coe, Multiset.singleton_add]

theorem beltsM_assign (speedB : ℚ) :
    ∀ (ms : List Moving) (belts : List (List Moving)) (rr : ℕ),
      belts.length = BELTS_R * BELTS_C →
      beltsM ((assign_arrivals speedB belts rr ms).1) = beltsM belts + idsM ms ∧
        (assign_arrivals speedB belts rr ms).1.length = belts.length := by
  intro ms
  induction ms with
  | nil =>
      intro belts rr _
      exact ⟨by simp [assign_arrivals, idsM], rfl⟩
  | cons m rest ih =>
      intro belts rr hlen
      have hb0 := serp_mem_bounds _ (serp_getD_mem rr)
      set b0 := SERP_ORDER.getD (rr % (BELTS_R * BELTS_C)) 0 with hb0def
      have hb0lt : b0 - 1 < belts.length := by omega
      have hstep : assign_arrivals speedB belts rr (m :: rest) =
          assign_arrivals speedB
            (belts.set (b0 - 1) (belts.getD (b0 - 1) [] ++ [mk_belt_item b0 speedB m]))
            (rr + 1) rest := rfl
      have hrec := ih
        (belts.set (b0 - 1) (belts.getD (b0 - 1) [] ++ [mk_belt_item b0 speedB m]))
        (rr + 1) (by rw [List.length_set, hlen])
      have hset := beltsM_set
        (belts.getD (b0 - 1) [] ++ [mk_belt_item b0 speedB m]) belts (b0 - 1) hb0lt
      rw [idsM_append, idsM_singleton] at hset
      have hmkid : (mk_belt_item b0 speedB m).id = m.id := rfl
      rw [hmkid] at hset
      have hcancel : beltsM (belts.set (b0 - 1)
          (belts.getD (b0 - 1) [] ++ [mk_belt_item b0 speedB m])) =
          beltsM belts + {m.id} := by
        have h2 : beltsM (belts.set (b0 - 1)
            (belts.getD (b0 - 1) [] ++ [mk_belt_item b0 speedB m])) +
              idsM (belts.getD (b0 - 1) []) =
            (beltsM belts + {m.id}) + idsM (belts.getD (b0 - 1) []) := by
          rw [hset]; abel
        exact add_right_cancel h2
      constructor
      · rw [hstep, hrec.1, hcancel, idsM_cons]
        abel
      · rw [hstep, hrec.2, List.length_set]

theorem load_stepped_snd (sp : ℚ) (l : List Moving) :
    (load_stepped sp l).map (·.2) =
      l.map (fun m => Moving.step { m with speed := sp } DT) := by
  unfold load_stepped
  rw [List.map_map]
  rfl

/-- One load-loop step preserves the id multiset: the ids moved to the belts
are removed from the loop, everything else only changes position. -/
theorem allIds_step_load_loop (s : ConveyorSystem)
    (hnd : (s.load_loop.map Moving.id).Nodup)
    (hblen : s.belts.length = BELTS_R * BELTS_C) :
    (s.step_load_loop).allIds = s.allIds ∧ (s.step_load_loop).next_id = s.next_id ∧
      (s.step_load_loop).belts.length = s.belts.length := by
  unfold ConveyorSystem.step_load_loop
  by_cases hemp : s.load_loop.isEmpty
  · rw [if_pos hemp]
    exact ⟨rfl, rfl, rfl⟩
  · rw [if_neg hemp]
    dsimp only
    by_cases hse : (load_arrivals_sorted (s.speed_for "LOAD") s.load_loop).isEmpty
    · rw [if_pos hse]
      refine ⟨?_, rfl, rfl⟩
      unfold ConveyorSystem.allIds
      rw [load_stepped_snd, idsM_map_step]
    · rw [if_neg hse]
      set sp := s.speed_for "LOAD" with hsp
      set P := load_stepped sp s.load_loop with hPdef
      -- ids of the stepped loop agree with the original loop ids
      have hPids : (P.map (·.2)).map Moving.id = s.load_loop.map Moving.id := by
        rw [hPdef, load_stepped_snd, map_id_map_step]
      have hPids2 : P.map (fun pm => pm.2.id) = s.load_loop.map Moving.id := by
        rw [← hPids, List.map_map]
        rfl
      have hndP : (P.map (fun pm => pm.2.id)).Nodup := by
        rw [hPids2]; exact hnd
      -- the sorted arrival ids are a permutation of the crossing ids
      have hidsperm : List.Perm ((load_arrivals_sorted sp s.load_loop).map Moving.id)
          ((P.filter (fun pm => crossedB sp pm.1 pm.2.pos)).map (fun pm => pm.2.id)) := by
        unfold load_arrivals_sorted
        refine ((List.perm_insertionSort _ _).map Moving.id).trans ?_
        rw [← hPdef, List.map_map]
        exact List.Perm.refl _
      -- removing by membership in the arrival ids is filtering by the crossing test
      have hload : ((P.map (·.2)).filter
          (fun m => !decide (m.id ∈ (load_arrivals_sorted sp s.load_loop).map Moving.id))) =
          (P.filter (fun pm => !crossedB sp pm.1 pm.2.pos)).map (·.2) := by
        have hcongr : ((P.map (·.2)).filter
            (fun m => !decide (m.id ∈ (load_arrivals_sorted sp s.load_loop).map Moving.id))) =
            ((P.map (·.2)).filter
              (fun m => !decide (m.id ∈
                (P.filter (fun pm => crossedB sp pm.1 pm.2.pos)).map (fun pm => pm.2.id)))) := by
          apply List.filter_congr
          intro m _
          have : (m.id ∈ (load_arrivals_sorted sp s.load_loop).map Moving.id) ↔
              (m.id ∈ (P.filter (fun pm => crossedB sp pm.1 pm.2.pos)).map
                (fun pm => pm.2.id)) := hidsperm.mem_iff
          rw [decide_eq_decide.mpr this]
        rw [hcongr, List.filter_map]
        have hmain := filter_mem_ids (fun pm : ℚ × Moving => pm.2.id)
          (fun pm => crossedB sp pm.1 pm.2.pos) P hndP
        rw [show ((fun m : Moving => !decide (m.id ∈
            (P.filter (fun pm => crossedB sp pm.1 pm.2.pos)).map (fun pm => pm.2.id))) ∘
              (fun pm : ℚ × Moving => pm.2)) =
            (fun pm : ℚ × Moving => !decide (pm.2.id ∈
              (P.filter (fun pm => crossedB sp pm.1 pm.2.pos)).map (fun pm => pm.2.id)))
          from rfl]
        rw [hmain]
      refine ⟨?_, rfl, ?_⟩
      · unfold ConveyorSystem.allIds
        dsimp only
        rw [hload]
        have hbelts := (beltsM_assign (s.speed_for "B")
          (load_arrivals_sorted sp s.load_loop) s.belts s.rr hblen).1
        rw [hbelts]
        have hsortids : idsM (load_arrivals_sorted sp s.load_loop) =
            ((P.filter (fun pm => crossedB sp pm.1 pm.2.pos)).map (fun pm => pm.2.id) :
              List ℕ) := by
          unfold idsM
          rw [Multiset.coe_eq_coe]
          exact hidsperm
        rw [hsortids]
        have hkeep : idsM ((P.filter (fun pm => !crossedB sp pm.1 pm.2.pos)).map (·.2)) =
            ((P.filter (fun pm => !crossedB sp pm.1 pm.2.pos)).map (fun pm => pm.2.id) :
              List ℕ) := by
          unfold idsM
          rw [List.map_map]
          rfl
        rw [hkeep]
        have hsplit := idsM_filter_split (fun pm : ℚ × Moving => pm.2.id)
          (fun pm => crossedB sp pm.1 pm.2.pos) P
        have hloadids : idsM s.load_loop = ((P.map (fun pm => pm.2.id) : List ℕ) :
            Multiset ℕ) := by
          unfold idsM
          rw [hPids2]
        rw [hloadids]
        rw [← hsplit]
        abel
      · exact (beltsM_assign (s.speed_for "B")
          (load_arrivals_sorted sp s.load_loop) s.belts s.rr hblen).2

theorem idsM_map_mk_line2 (spL2 : ℚ) (l : List Moving) :
    idsM (l.map (mk_line2_item spL2)) = idsM l := by
  unfold idsM
  rw [List.map_map]
  rfl

theorem idsM_map_mk_unl (u : String) (spU : ℚ) (l : List Moving) :
    idsM (l.map (mk_unl_item u spU)) = idsM l := by
  unfold idsM
  rw [List.map_map]
  rfl

theorem idsM_filter_split' (p : Moving → Bool) (l : List Moving) :
    idsM (l.filter p) + idsM (l.filter (fun m => !p m)) = idsM l :=
  idsM_filter_split Moving.id p l

theorem belt_fold_step_invariant (sp spL2 : ℚ) (allow : Bool)
    (acc : List (List Moving) × List Moving) (idx : ℕ) :
    beltsM (belt_fold_step sp spL2 allow acc idx).1 +
        idsM (belt_fold_step sp spL2 allow acc idx).2 =
      beltsM acc.1 + idsM acc.2 ∧
    (belt_fold_step sp spL2 allow acc idx).1.length = acc.1.length := by
  unfold belt_fold_step
  dsimp only
  by_cases hemp : (acc.1.getD (idx - 1) []).isEmpty
  · rw [if_pos hemp]
    exact ⟨rfl, rfl⟩
  · rw [if_neg hemp]
    by_cases hi : idx - 1 < acc.1.length
    · have hupd : idsM (belt_advance sp belt_gap BELT_LEN_M allow
          (acc.1.getD (idx - 1) [])) = idsM (acc.1.getD (idx - 1) []) :=
        idsM_belt_advance _ _ _ _ _
      cases allow with
      | false =>
          simp only [Bool.false_eq_true, if_false]
          constructor
          · have hset := beltsM_set
              (belt_advance sp belt_gap BELT_LEN_M false (acc.1.getD (idx - 1) []))
              acc.1 (idx - 1) hi
            rw [hupd] at hset
            have := add_right_cancel hset
            rw [this]
          · exact List.length_set _ _ _
      | true =>
          simp only [if_true]
          constructor
          · dsimp only
            have hset := beltsM_set
              ((belt_advance sp belt_gap BELT_LEN_M true (acc.1.getD (idx - 1) [])).filter
                (fun m => !exit_test m))
              acc.1 (idx - 1) hi
            have hsplit := idsM_filter_split' exit_test
              (belt_advance sp belt_gap BELT_LEN_M true (acc.1.getD (idx - 1) []))
            rw [hupd] at hsplit
            rw [idsM_append, idsM_map_mk_line2]
            have hkey : beltsM (acc.1.set (idx - 1)
                ((belt_advance sp belt_gap BELT_LEN_M true
                  (acc.1.getD (idx - 1) [])).filter (fun m => !exit_test m))) +
                idsM ((belt_advance sp belt_gap BELT_LEN_M true
                  (acc.1.getD (idx - 1) [])).filter exit_test) = beltsM acc.1 := by
              have h2 : (beltsM (acc.1.set (idx - 1)
                  ((belt_advance sp belt_gap BELT_LEN_M true
                    (acc.1.getD (idx - 1) [])).filter (fun m => !exit_test m))) +
                  idsM ((belt_advance sp belt_gap BELT_LEN_M true
                    (acc.1.getD (idx - 1) [])).filter exit_test)) +
                  idsM ((belt_advance sp belt_gap BELT_LEN_M true
                    (acc.1.getD (idx - 1) [])).filter (fun m => !exit_test m)) =
                  beltsM acc.1 +
                  idsM ((belt_advance sp belt_gap BELT_LEN_M true
                    (acc.1.getD (idx - 1) [])).filter (fun m => !exit_test m)) := by
                calc (beltsM (acc.1.set (idx - 1)
                    ((belt_advance sp belt_gap BELT_LEN_M true
                      (acc.1.getD (idx - 1) [])).filter (fun m => !exit_test m))) +
                    idsM ((belt_advance sp belt_gap BELT_LEN_M true
                      (acc.1.getD (idx - 1) [])).filter exit_test)) +
                    idsM ((belt_advance sp belt_gap BELT_LEN_M true
                      (acc.1.getD (idx - 1) [])).filter (fun m => !exit_test m)) =
                    beltsM (acc.1.set (idx - 1)
                      ((belt_advance sp belt_gap BELT_LEN_M true
                        (acc.1.getD (idx - 1) [])).filter (fun m => !exit_test m))) +
                      (idsM ((belt_advance sp belt_gap BELT_LEN_M true
                        (acc.1.getD (idx - 1) [])).filter exit_test) +
                       idsM ((belt_advance sp belt_gap BELT_LEN_M true
                        (acc.1.getD (idx - 1) [])).filter (fun m => !exit_test m))) := by
                      abel
                  _ = beltsM (acc.1.set (idx - 1)
                      ((belt_advance sp belt_gap BELT_LEN_M true
                        (acc.1.getD (idx - 1) [])).filter (fun m => !exit_test m))) +
                      idsM (acc.1.getD (idx - 1) []) := by rw [hsplit]
                  _ = beltsM acc.1 +
                      idsM ((belt_advance sp belt_gap BELT_LEN_M true
                        (acc.1.getD (idx - 1) [])).filter (fun m => !exit_test m)) := hset
              exact add_right_cancel h2
            have hfinal : beltsM (acc.1.set (idx - 1)
                ((belt_advance sp belt_gap BELT_LEN_M true
                  (acc.1.getD (idx - 1) [])).filter (fun m => !exit_test m))) +
                (idsM acc.2 +
                 idsM ((belt_advance sp belt_gap BELT_LEN_M true
                   (acc.1.getD (idx - 1) [])).filter exit_test)) =
                (beltsM (acc.1.set (idx - 1)
                  ((belt_advance sp belt_gap BELT_LEN_M true
                    (acc.1.getD (idx - 1) [])).filter (fun m => !exit_test m))) +
                 idsM ((belt_advance sp belt_gap BELT_LEN_M true
                   (acc.1.getD (idx - 1) [])).filter exit_test)) + idsM acc.2 := by
              abel
            rw [hfinal, hkey]
          · exact List.length_set _ _ _
    · exfalso
      have : acc.1.getD (idx - 1) [] = [] :=
        List.getD_eq_default _ _ (le_of_not_lt hi)
      rw [this] at hemp
      simp at hemp

theorem belts_fold_invariant (sp spL2 : ℚ) (allow : Bool) :
    ∀ (idxs : List ℕ) (acc : List (List Moving) × List Moving),
      beltsM (idxs.foldl (belt_fold_step sp spL2 allow) acc).1 +
          idsM (idxs.foldl (belt_fold_step sp spL2 allow) acc).2 =
        beltsM acc.1 + idsM acc.2 ∧
      (idxs.foldl (belt_fold_step sp spL2 allow) acc).1.length = acc.1.length := by
  intro idxs
  induction idxs with
  | nil => intro acc; exact ⟨rfl, rfl⟩
  | cons idx idxs ih =>
      intro acc
      rw [List.foldl_cons]
      have h1 := belt_fold_step_invariant sp spL2 allow acc idx
      have h2 := ih (belt_fold_step sp spL2 allow acc idx)
      exact ⟨h2.1.trans h1.1, h2.2.trans h1.2⟩

theorem allIds_step_belts (s : ConveyorSystem) :
    (s.step_belts).allIds = s.allIds ∧ (s.step_belts).next_id = s.next_id ∧
      (s.step_belts).belts.length = s.belts.length := by
  unfold ConveyorSystem.step_belts
  dsimp only
  have h := belts_fold_invariant (s.speed_for "B") (s.speed_for "L2")
    (decide (s.mode = "DRAIN")) SERP_ORDER (s.belts, s.line2)
  refine ⟨?_, rfl, h.2⟩
  unfold ConveyorSystem.allIds
  dsimp only
  calc idsM s.load_loop +
      beltsM (SERP_ORDER.foldl (belt_fold_step (s.speed_for "B") (s.speed_for "L2")
        (decide (s.mode = "DRAIN"))) (s.belts, s.line2)).1 +
      idsM (SERP_ORDER.foldl (belt_fold_step (s.speed_for "B") (s.speed_for "L2")
        (decide (s.mode = "DRAIN"))) (s.belts, s.line2)).2 +
      idsM s.unl1 + idsM s.unl2 + ↑s.done_log =
      (idsM s.load_loop + idsM s.unl1 + idsM s.unl2 + ↑s.done_log) +
      (beltsM (SERP_ORDER.foldl (belt_fold_step (s.speed_for "B") (s.speed_for "L2")
        (decide (s.mode = "DRAIN"))) (s.belts, s.line2)).1 +
       idsM (SERP_ORDER.foldl (belt_fold_step (s.speed_for "B") (s.speed_for "L2")
        (decide (s.mode = "DRAIN"))) (s.belts, s.line2)).2) := by abel
    _ = (idsM s.load_loop + idsM s.unl1 + idsM s.unl2 + ↑s.done_log) +
      (beltsM s.belts + idsM s.line2) := by rw [h.1]
    _ = idsM s.load_loop + beltsM s.belts + idsM s.line2 + idsM s.unl1 +
      idsM s.unl2 + ↑s.done_log := by abel

theorem unl_route_fold_ids (spU1 spU2 : ℚ) :
    ∀ (arrived : List Moving) (acc : List Moving × List Moving × ℕ),
      idsM (arrived.foldl (unl_route_step spU1 spU2) acc).1 +
          idsM (arrived.foldl (unl_route_step spU1 spU2) acc).2.1 =
        idsM acc.1 + idsM acc.2.1 + idsM arrived := by
  intro arrived
  induction arrived with
  | nil =>
      intro acc
      show idsM acc.1 + idsM acc.2.1 = _
      simp [idsM]
  | cons m rest ih =>
      intro acc
      rw [List.foldl_cons]
      rw [ih (unl_route_step spU1 spU2 acc m)]
      rw [idsM_cons]
      unfold unl_route_step
      by_cases hpar : acc.2.2 % 2 = 0
      · rw [if_pos hpar]
        dsimp only
        rw [idsM_append, idsM_singleton]
        have : (mk_unl_item "U1" spU1 m).id = m.id := rfl
        rw [this]
        abel
      · rw [if_neg hpar]
        dsimp only
        rw [idsM_append, idsM_singleton]
        have : (mk_unl_item "U2" spU2 m).id = m.id := rfl
        rw [this]
        abel

theorem allIds_step_line2 (s : ConveyorSystem)
    (hnd : (s.line2.map Moving.id).Nodup) :
    (s.step_line2).allIds = s.allIds ∧ (s.step_line2).next_id = s.next_id ∧
      (s.step_line2).belts.length = s.belts.length := by
  unfold ConveyorSystem.step_line2
  by_cases hemp : s.line2.isEmpty
  · rw [if_pos hemp]
    exact ⟨rfl, rfl, rfl⟩
  · rw [if_neg hemp]
    dsimp only
    set stepped := s.line2.map (fun m => Moving.step { m with speed := s.speed_for "L2" } DT)
      with hstepdef
    have hstepids : stepped.map Moving.id = s.line2.map Moving.id :=
      map_id_map_step (s.speed_for "L2") s.line2
    have hndstep : (stepped.map Moving.id).Nodup := by rw [hstepids]; exact hnd
    by_cases harr : (stepped.filter Moving.done).isEmpty
    · rw [if_pos harr]
      refine ⟨?_, rfl, rfl⟩
      unfold ConveyorSystem.allIds
      dsimp only
      have : idsM stepped = idsM s.line2 := by
        unfold idsM
        rw [hstepids]
      rw [this]
    · rw [if_neg harr]
      refine ⟨?_, rfl, rfl⟩
      unfold ConveyorSystem.allIds
      dsimp only
      have hkeep : stepped.filter
          (fun m => !decide (m.id ∈ (stepped.filter Moving.done).map (·.id))) =
          stepped.filter (fun m => !m.done) := by
        have := filter_mem_ids Moving.id Moving.done stepped hndstep
        exact this
      rw [hkeep]
      have hfold := unl_route_fold_ids (s.speed_for "U1") (s.speed_for "U2")
        (stepped.filter Moving.done) (s.unl1, s.unl2, s.rr)
      have hsplit := idsM_filter_split' Moving.done stepped
      have hlineids : idsM stepped = idsM s.line2 := by
        unfold idsM
        rw [hstepids]
      calc idsM s.load_loop + beltsM s.belts +
          idsM (stepped.filter (fun m => !m.done)) +
          idsM ((stepped.filter Moving.done).foldl
            (unl_route_step (s.speed_for "U1") (s.speed_for "U2"))
            (s.unl1, s.unl2, s.rr)).1 +
          idsM ((stepped.filter Moving.done).foldl
            (unl_route_step (s.speed_for "U1") (s.speed_for "U2"))
            (s.unl1, s.unl2, s.rr)).2.1 + ↑s.done_log =
          idsM s.load_loop + beltsM s.belts +
          idsM (stepped.filter (fun m => !m.done)) +
          (idsM ((stepped.filter Moving.done).foldl
            (unl_route_step (s.speed_for "U1") (s.speed_for "U2"))
            (s.unl1, s.unl2, s.rr)).1 +
           idsM ((stepped.filter Moving.done).foldl
            (unl_route_step (s.speed_for "U1") (s.speed_for "U2"))
            (s.unl1, s.unl2, s.rr)).2.1) + ↑s.done_log := by abel
        _ = idsM s.load_loop + beltsM s.belts +
          idsM (stepped.filter (fun m => !m.done)) +
          (idsM s.unl1 + idsM s.unl2 + idsM (stepped.filter Moving.done)) +
          ↑s.done_log := by rw [hfold]
        _ = idsM s.load_loop + beltsM s.belts +
            (idsM (stepped.filter Moving.done) +
             idsM (stepped.filter (fun m => !m.done))) +
            idsM s.unl1 + idsM s.unl2 + ↑s.done_log := by abel
        _ = idsM s.load_loop + beltsM s.belts + idsM stepped + idsM s.unl1 +
            idsM s.unl2 + ↑s.done_log := by rw [hsplit]
        _ = idsM s.load_loop + beltsM s.belts + idsM s.line2 + idsM s.unl1 +
            idsM s.unl2 + ↑s.done_log := by rw [hlineids]

theorem allIds_step_unl1 (s : ConveyorSystem) :
    (s.step_unl1).allIds = s.allIds ∧ (s.step_unl1).next_id = s.next_id ∧
      (s.step_unl1).belts.length = s.belts.length := by
  unfold ConveyorSystem.step_unl1
  by_cases hemp : s.unl1.isEmpty
  · rw [if_pos hemp]
    exact ⟨rfl, rfl, rfl⟩
  · rw [if_neg hemp]
    dsimp only
    set stepped := s.unl1.map (fun m => Moving.step { m with speed := s.speed_for "U1" } DT)
      with hstepdef
    have hids : idsM stepped = idsM s.unl1 := idsM_map_step _ _
    by_cases hdone : (stepped.filter Moving.done).isEmpty
    · rw [if_pos hdone]
      refine ⟨?_, rfl, rfl⟩
      unfold ConveyorSystem.allIds
      dsimp only
      rw [hids]
    · rw [if_neg hdone]
      refine ⟨?_, rfl, rfl⟩
      unfold ConveyorSystem.allIds
      dsimp only
      rw [filter_not_mem_filter]
      have hlog : (↑(s.done_log ++ (stepped.filter Moving.done).map Moving.id) :
          Multiset ℕ) = ↑s.done_log + idsM (stepped.filter Moving.done) := by
        rw [← Multiset.coe_add]
        rfl
      rw [hlog]
      have hsplit := idsM_filter_split' Moving.done stepped
      calc idsM s.load_loop + beltsM s.belts + idsM s.line2 +
          idsM (stepped.filter (fun m => !m.done)) + idsM s.unl2 +
          (↑s.done_log + idsM (stepped.filter Moving.done)) =
          idsM s.load_loop + beltsM s.belts + idsM s.line2 +
          (idsM (stepped.filter Moving.done) +
            idsM (stepped.filter (fun m => !m.done))) + idsM s.unl2 +
          ↑s.done_log := by abel
        _ = idsM s.load_loop + beltsM s.belts + idsM s.line2 + idsM stepped +
            idsM s.unl2 + ↑s.done_log := by rw [hsplit]
        _ = idsM s.load_loop + beltsM s.belts + idsM s.line2 + idsM s.unl1 +
            idsM s.unl2 + ↑s.done_log := by rw [hids]

theorem allIds_step_unl2 (s : ConveyorSystem) :
    (s.step_unl2).allIds = s.allIds ∧ (s.step_unl2).next_id = s.next_id ∧
      (s.step_unl2).belts.length = s.belts.length := by
  unfold ConveyorSystem.step_unl2
  by_cases hemp : s.unl2.isEmpty
  · rw [if_pos hemp]
    exact ⟨rfl, rfl, rfl⟩
  · rw [if_neg hemp]
    dsimp only
    set stepped := s.unl2.map (fun m => Moving.step { m with speed := s.speed_for "U2" } DT)
      with hstepdef
    have hids : idsM stepped = idsM s.unl2 := idsM_map_step _ _
    by_cases hdone : (stepped.filter Moving.done).isEmpty
    · rw [if_pos hdone]
      refine ⟨?_, rfl, rfl⟩
      unfold ConveyorSystem.allIds
      dsimp only
      rw [hids]
    · rw [if_neg hdone]
      refine ⟨?_, rfl, rfl⟩
      unfold ConveyorSystem.allIds
      dsimp only
      rw [filter_not_mem_filter]
      have hlog : (↑(s.done_log ++ (stepped.filter Moving.done).map Moving.id) :
          Multiset ℕ) = ↑s.done_log + idsM (stepped.filter Moving.done) := by
        rw [← Multiset.coe_add]
        rfl
      rw [hlog]
      have hsplit := idsM_filter_split' Moving.done stepped
      calc idsM s.load_loop + beltsM s.belts + idsM s.line2 + idsM s.unl1 +
          idsM (stepped.filter (fun m => !m.done)) +
          (↑s.done_log + idsM (stepped.filter Moving.done)) =
          idsM s.load_loop + beltsM s.belts + idsM s.line2 + idsM s.unl1 +
          (idsM (stepped.filter Moving.done) +
            idsM (stepped.filter (fun m => !m.done))) +
          ↑s.done_log := by abel
        _ = idsM s.load_loop + beltsM s.belts + idsM s.line2 + idsM s.unl1 +
            idsM stepped + ↑s.done_log := by rw [hsplit]
        _ = idsM s.load_loop + beltsM s.belts + idsM s.line2 + idsM s.unl1 +
            idsM s.unl2 + ↑s.done_log := by rw [hids]

theorem nodup_parts (s : ConveyorSystem) (h : s.allIds.Nodup) :
    (s.load_loop.map Moving.id).Nodup ∧ (s.line2.map Moving.id).Nodup := by
  unfold ConveyorSystem.allIds at h
  have h1 := (Multiset.nodup_add.mp h).1
  have h2 := (Multiset.nodup_add.mp h1).1
  have h3 := (Multiset.nodup_add.mp h2).1
  have hC := (Multiset.nodup_add.mp h3).2.1
  have h4 := (Multiset.nodup_add.mp h3).1
  have hA := (Multiset.nodup_add.mp h4).1
  exact ⟨Multiset.coe_nodup.mp hA, Multiset.coe_nodup.mp hC⟩

theorem Inv_step_load_loop {s : ConveyorSystem} (h : Inv s) : Inv s.step_load_loop := by
  have hstep := allIds_step_load_loop s (nodup_parts s h.1).1 h.2.2.1
  exact Inv_of_eq h hstep.1 hstep.2.1 hstep.2.2

theorem Inv_step_belts {s : ConveyorSystem} (h : Inv s) : Inv s.step_belts := by
  have hstep := allIds_step_belts s
  exact Inv_of_eq h hstep.1 hstep.2.1 hstep.2.2

theorem Inv_step_line2 {s : ConveyorSystem} (h : Inv s) : Inv s.step_line2 := by
  have hstep := allIds_step_line2 s (nodup_parts s h.1).2
  exact Inv_of_eq h hstep.1 hstep.2.1 hstep.2.2

theorem Inv_step_unloads {s : ConveyorSystem} (h : Inv s) : Inv s.step_unloads := by
  have h1 := allIds_step_unl1 s
  have hInv1 : Inv s.step_unl1 := Inv_of_eq h h1.1 h1.2.1 h1.2.2
  have h2 := allIds_step_unl2 s.step_unl1
  exact Inv_of_eq hInv1 h2.1 h2.2.1 h2.2.2

theorem Inv_tick {s : ConveyorSystem} (counts : List ℕ) (h : Inv s) :
    Inv (s.tick counts) := by
  unfold ConveyorSystem.tick
  have h0 : Inv { s with t := s.t + DT } := Inv_of_eq h rfl rfl rfl
  exact Inv_step_unloads (Inv_step_line2 (Inv_step_belts (Inv_step_load_loop
    (Inv_spawn counts h0))))

theorem Inv_apply_event {s : ConveyorSystem} (e : Event) (h : Inv s) :
    Inv (s.apply_event e) := by
  cases e with
  | tick counts => exact Inv_tick counts h
  | toggle => exact Inv_of_eq h rfl rfl rfl
  | set m =>
      show Inv (match s.set_mode m with | .ok s' => s' | .error _ => s)
      unfold ConveyorSystem.set_mode
      by_cases hm : m = "COLLECT" ∨ m = "DRAIN"
      · rw [if_pos hm]
        exact Inv_of_eq h rfl rfl rfl
      · rw [if_neg hm]
        exact h

theorem Inv_init : Inv ({} : ConveyorSystem) := by
  have hb : beltsM (List.replicate (BELTS_R * BELTS_C) []) = 0 := by
    simp [beltsM, List.map_replicate, List.sum_replicate, idsM]
  have hall : ({} : ConveyorSystem).allIds = 0 := by
    show idsM [] + beltsM (List.replicate (BELTS_R * BELTS_C) []) + idsM [] +
      idsM [] + idsM [] + ↑([] : List ℕ) = 0
    rw [hb]
    rfl
  refine ⟨?_, ?_, ?_, ?_⟩
  · rw [hall]; exact Multiset.nodup_zero
  · intro i hi
    rw [hall] at hi
    exact absurd hi (Multiset.not_mem_zero i)
  · simp
  · show 1 = _
    have : ({} : ConveyorSystem).total_count = 0 := by
      show 0 + (List.map List.length (List.replicate (BELTS_R * BELTS_C) [])).sum +
        0 + 0 + 0 + 0 = 0
      simp [List.map_replicate, List.sum_replicate]
    rw [this]

theorem Inv_run (events : List Event) : Inv (run events) := by
  unfold run
  have key : ∀ (l : List Event) (s : ConveyorSystem), Inv s →
      Inv (l.foldl ConveyorSystem.apply_event s) := by
    intro l
    induction l with
    | nil => exact fun s h => h
    | cons e l ih =>
        intro s h
        rw [List.foldl_cons]
        exact ih _ (Inv_apply_event e h)
  exact key events {} Inv_init

/-- Claim C1: item conservation — in every state reachable from the initial
`ConveyorSystem` by ticking (with arbitrary spawn draws) and mode commands,
the number of items created (`next_id - 1`) equals the number of items
currently in the system (load loop, all belts, line2, unl1, unl2) plus the
number of completed items (`done_log` length). -/
theorem conveyor_conservation (events : List Event) :
    (run events).next_id - 1 =
      (run events).load_loop.length + ((run events).belts.map List.length).sum +
        (run events).line2.length + (run events).unl1.length +
        (run events).unl2.length + (run events).done_log.length := by
  have h := (Inv_run events).2.2.2
  show (run events).next_id - 1 = (run events).total_count
  rw [h]
  omega

end ConveyorBelt
